import Mathlib

/-!
# TodoList (adda.cpp): a shallow embedding and its verified properties

The program keeps an ordered collection of tasks, each with a title, a
description, a completion flag, a priority, a creation date and a deadline,
and stores them in a line-oriented text file.

C++ `int` values are modelled as `Int`; the only arithmetic the program does
on them is remainder by a positive constant and `m - 1` on a value already
known to be in `1..12`, so no operation can overflow.  Where a conversion to
`int` can wrap (`(int)tasks.size()`), the wrap is written out.
-/

namespace TodoList

/-! ## Date -/

/-- The class `Date`: three `int` fields. -/
structure Date where
  day : Int
  month : Int
  year : Int
deriving DecidableEq, Repr

/-- The default constructor `Date::Date()`: 1/1/2000. -/
def Date.default : Date := ⟨1, 1, 2000⟩

/-- `Date::isLeapYear`: `(y % 4 == 0 && y % 100 != 0) || (y % 400 == 0)`,
with the truncating remainder of C++. -/
def Date.isLeapYear (y : Int) : Bool :=
  (Int.tmod y 4 == 0 && Int.tmod y 100 != 0) || (Int.tmod y 400 == 0)

/-- The local table `daysInMonth` of `Date::isValidDate`. -/
def Date.daysInMonth : List Int := [31, 28, 31, 30, 31, 30, 31, 31, 30, 31, 30, 31]

/-- `Date::isValidDate`: the guard, the leap February case, then the table
lookup `daysInMonth[m-1]` (in range, since the guard has passed). -/
def Date.isValidDate (d m y : Int) : Bool :=
  if y < 0 || m < 1 || m > 12 || d < 1 then false
  else if m == 2 && Date.isLeapYear y then decide (d ≤ 29)
  else decide (d ≤ Date.daysInMonth.getD (m - 1).toNat 0)

/-- The validating constructor `Date::Date(int d, int m, int y)`. -/
def Date.mk3 (d m y : Int) : Date :=
  if Date.isValidDate d m y then ⟨d, m, y⟩ else ⟨1, 1, 2000⟩

/-- `Date::operator<`: year, then month, then day. -/
def Date.lt (a b : Date) : Bool :=
  if a.year ≠ b.year then decide (a.year < b.year)
  else if a.month ≠ b.month then decide (a.month < b.month)
  else decide (a.day < b.day)

/-- `Date::operator<=`: `!(other < *this)`. -/
def Date.le (a b : Date) : Bool := !(Date.lt b a)

/-! ## Priority -/

/-- The class `Priority`: one `int` field. -/
structure Priority where
  value : Int
deriving DecidableEq, Repr

/-- The default constructor `Priority()`: value 1. -/
def Priority.default : Priority := ⟨1⟩

/-- The clamping constructor `Priority::Priority(int v)`. -/
def Priority.ofInt (v : Int) : Priority :=
  if v ≥ 1 ∧ v ≤ 3 then ⟨v⟩ else ⟨1⟩

/-- `Priority::getValue`. -/
def Priority.getValue (p : Priority) : Int := p.value

/-- `Priority::getName`: the `switch` on the stored value. -/
def Priority.getName (p : Priority) : String :=
  if p.value = 1 then "Low"
  else if p.value = 2 then "Medium"
  else if p.value = 3 then "High"
  else "Unknown"

/-- `Priority::operator>`. -/
def Priority.gt (a b : Priority) : Bool := decide (a.value > b.value)

/-- `Priority::operator<`. -/
def Priority.lt (a b : Priority) : Bool := decide (a.value < b.value)

/-! ## Text streams

The program reads and writes its file through `ifstream` and `ofstream`.
An output stream is modelled by the characters written so far.  An input
stream is modelled by the characters not yet read together with the two state
flags the program can observe, `eofbit` and `failbit`.  Every extraction first
tests `good()`; once a flag is set, every later extraction only sets `failbit`
and leaves its target variable as it was. -/

/-- The observable state of an `ifstream`. -/
structure IStream where
  buf : List Char
  eof : Bool
  fail : Bool
deriving DecidableEq, Repr

/-- `ifstream in("tasks.txt")` on an existing file with the given content. -/
def IStream.ofContent (content : List Char) : IStream := ⟨content, false, false⟩

/-- `in.good()`: neither flag is set. -/
def IStream.good (s : IStream) : Bool := !s.eof && !s.fail

/-- `isspace` in the classic locale: space, `\t`, `\n`, `\v`, `\f`, `\r`. -/
def isSpace (c : Char) : Bool :=
  c == ' ' || c == '\t' || c == '\n' || c == '\x0b' || c == '\x0c' || c == '\r'

/-- The decimal digits `0`..`9`. -/
def isDigit (c : Char) : Bool := decide (48 ≤ c.toNat ∧ c.toNat ≤ 57)

/-- Skips leading whitespace, as the sentry of a formatted extraction does. -/
def skipWs : List Char → List Char
  | [] => []
  | c :: cs => if isSpace c then skipWs cs else c :: cs

/-- Reads the longest run of decimal digits, accumulating its value. -/
def readDigits : List Char → Nat → Nat × List Char
  | [], acc => (acc, [])
  | c :: cs, acc =>
    if isDigit c then readDigits cs (10 * acc + (c.toNat - 48)) else (acc, c :: cs)

/-- Extraction `in >> v` for an `int` variable whose value before the
extraction is `old`.  A stream that is not good only gets `failbit` and `v`
keeps `old`; so does a stream with nothing but whitespace left (which also sets
`eofbit`).  Otherwise an optional sign and the longest run of digits are
consumed: with no digit the extraction fails and stores 0, a value outside the
range of `int` fails and stores the nearest bound, and reading up to the end of
the input sets `eofbit`. -/
def IStream.extractInt (s : IStream) (old : Int) : IStream × Int :=
  if !s.good then ({ s with fail := true }, old)
  else
    match skipWs s.buf with
    | [] => (⟨[], true, true⟩, old)
    | c :: cs =>
      let body := if c == '-' || c == '+' then cs else c :: cs
      match body with
      | [] => (⟨[], true, true⟩, 0)
      | d :: ds =>
        if !isDigit d then (⟨d :: ds, false, true⟩, 0)
        else
          let r := readDigits (d :: ds) 0
          let v : Int := if c == '-' then -(r.1 : Int) else (r.1 : Int)
          if v < -2147483648 then (⟨r.2, r.2.isEmpty, true⟩, -2147483648)
          else if v > 2147483647 then (⟨r.2, r.2.isEmpty, true⟩, 2147483647)
          else (⟨r.2, r.2.isEmpty, false⟩, v)

/-- The call `in.ignore()`: discards one character; at the end of the input it
sets `eofbit`; on a stream that is not good it only sets `failbit`. -/
def IStream.ignore (s : IStream) : IStream :=
  if !s.good then { s with fail := true }
  else
    match s.buf with
    | [] => { s with eof := true }
    | _ :: cs => { s with buf := cs }

/-- The characters of the current line, up to the first newline. -/
def takeLine : List Char → List Char
  | [] => []
  | c :: cs => if c == '\n' then [] else c :: takeLine cs

/-- What follows the current line: `none` when the input ends before a
newline, else the characters after that newline. -/
def dropLine : List Char → Option (List Char)
  | [] => none
  | c :: cs => if c == '\n' then some cs else dropLine cs

/-- The call `getline(in, str)` for a string whose value before the call is
`old`.  On a stream that is not good only `failbit` is set and `str` keeps
`old`.  Otherwise `str` is erased and receives the characters up to the next
newline, which is consumed; running into the end of the input sets `eofbit`,
and extracting nothing at all sets `failbit` too. -/
def IStream.getline (s : IStream) (old : List Char) : IStream × List Char :=
  if !s.good then ({ s with fail := true }, old)
  else
    match s.buf with
    | [] => (⟨[], true, true⟩, [])
    | c :: cs =>
      match dropLine (c :: cs) with
      | none => (⟨[], true, false⟩, takeLine (c :: cs))
      | some rest => (⟨rest, false, false⟩, takeLine (c :: cs))

/-- The decimal digits of a natural number, most significant first. -/
def decDigits : Nat → Nat → List Char
  | 0, _ => []
  | fuel + 1, n =>
    if n < 10 then [Nat.digitChar n]
    else decDigits fuel (n / 10) ++ [Nat.digitChar (n % 10)]

/-- Insertion `out << v` of an `int`: a minus sign for a negative value, then
the decimal digits. -/
def putInt (v : Int) : List Char :=
  if v < 0 then '-' :: decDigits (v.natAbs + 1) v.natAbs
  else decDigits (v.natAbs + 1) v.natAbs

/-- Insertion `out << b` of a `bool` (no `boolalpha`): `1` or `0`. -/
def putBool (b : Bool) : List Char := if b then ['1'] else ['0']

/-- The function `operator<<(ostream&, const Date&)`:
`out << d.day << '/' << d.month << '/' << d.year`. -/
def Date.put (out : List Char) (d : Date) : List Char :=
  out ++ putInt d.day ++ ['/'] ++ putInt d.month ++ ['/'] ++ putInt d.year

/-- The function `operator>>(istream&, Date&)`:
`int dd, mm, yy; in >> dd >> mm >> yy; d = Date(dd, mm, yy);`.
The three locals are not initialised; `g` gives the values they hold before
the extractions. -/
def Date.get (s : IStream) (g : Int × Int × Int) : IStream × Date :=
  let r1 := s.extractInt g.1
  let r2 := r1.1.extractInt g.2.1
  let r3 := r2.1.extractInt g.2.2
  (r3.1, Date.mk3 r1.2 r2.2 r3.2)

/-- The function `operator<<(ostream&, const Priority&)`: `out << p.value`. -/
def Priority.put (out : List Char) (p : Priority) : List Char := out ++ putInt p.value

/-! ## Task -/

/-- The dynamic type of a task object: the base class `Task` or the derived
class `DeadlineTask`, which adds no field. -/
inductive TaskKind where
  | plain
  | deadlineTask
deriving DecidableEq, Repr

/-- A task object: its dynamic type and the fields of class `Task`. -/
structure Task where
  kind : TaskKind
  title : List Char
  description : List Char
  done : Bool
  priority : Priority
  creationDate : Date
  deadline : Date
deriving DecidableEq, Repr

/-- The constructor `Task::Task(t, d, p, cd, dl, status)`. -/
def Task.new (t d : List Char) (p : Priority) (cd dl : Date) (status : Bool) : Task :=
  ⟨TaskKind.plain, t, d, status, p, cd, dl⟩

/-- The constructor `DeadlineTask::DeadlineTask(t, d, p, cd, dl, status)`. -/
def DeadlineTask.new (t d : List Char) (p : Priority) (cd dl : Date) (status : Bool) : Task :=
  ⟨TaskKind.deadlineTask, t, d, status, p, cd, dl⟩

/-- `Task::markDone`: `done = true`. -/
def Task.markDone (t : Task) : Task := { t with done := true }

/-- `Task::isDone`. -/
def Task.isDone (t : Task) : Bool := t.done

/-- `Task::getPriority`. -/
def Task.getPriority (t : Task) : Priority := t.priority

/-- `Task::getDeadline`. -/
def Task.getDeadline (t : Task) : Date := t.deadline

/-- `Date::today`: the date built from the fields `tm_mday`, `tm_mon` and
`tm_year` of the host's local time, which are arguments here. -/
def Date.today (mday mon year : Int) : Date := Date.mk3 mday (mon + 1) (year + 1900)

/-- `Task::isOverdue`: `!done && deadline < Date::today()`; the value of
`Date::today()` is an argument. -/
def Task.isOverdue (today : Date) (t : Task) : Bool := !t.done && Date.lt t.deadline today

/-- `Task::save`: the line `0`, the title and the description on a line each,
the priority and the done flag on one line, then the two dates on a line
each. -/
def Task.save (out : List Char) (t : Task) : List Char :=
  let o1 := out ++ ['0', '\n']
  let o2 := o1 ++ t.title ++ ['\n'] ++ t.description ++ ['\n']
  let o3 := Priority.put o2 t.priority ++ [' '] ++ putBool t.done ++ ['\n']
  let o4 := Date.put o3 t.creationDate ++ ['\n']
  Date.put o4 t.deadline ++ ['\n']

/-- `DeadlineTask::save`, the override: the line `1`, then the same statements
as in `Task::save`. -/
def DeadlineTask.save (out : List Char) (t : Task) : List Char :=
  let o1 := out ++ ['1', '\n']
  let o2 := o1 ++ t.title ++ ['\n'] ++ t.description ++ ['\n']
  let o3 := Priority.put o2 t.priority ++ [' '] ++ putBool t.done ++ ['\n']
  let o4 := Date.put o3 t.creationDate ++ ['\n']
  Date.put o4 t.deadline ++ ['\n']

/-- The virtual call `t->save(out)`: the function of the object's dynamic
type runs. -/
def Task.vsave (out : List Char) (t : Task) : List Char :=
  match t.kind with
  | TaskKind.plain => Task.save out t
  | TaskKind.deadlineTask => DeadlineTask.save out t

/-! ## TodoList -/

/-- The conversion `(int)tasks.size()`: the size reduced into the range of a
32-bit `int`. -/
def toInt32 (n : Nat) : Int := ((n + 2147483648) % 4294967296 : Nat) - 2147483648

/-- What a member function leaves behind: the task vector, and the message of
the `out_of_range` exception if it threw one. -/
structure Outcome where
  tasks : List Task
  thrown : Option String
deriving DecidableEq, Repr

/-- `TodoList::addTask`: `tasks.push_back(t)`. -/
def addTask (tasks : List Task) (t : Task) : List Task := tasks ++ [t]

/-- `TodoList::markDone`: the range check, then `tasks[index]->markDone()`. -/
def markDone (tasks : List Task) (index : Int) : Outcome :=
  if index < 0 || index ≥ toInt32 tasks.length then ⟨tasks, some "Invalid task number."⟩
  else ⟨tasks.modify Task.markDone index.toNat, none⟩

/-- `TodoList::removeTask`: the range check, then `delete tasks[index]` and
`tasks.erase(tasks.begin() + index)`. -/
def removeTask (tasks : List Task) (index : Int) : Outcome :=
  if index < 0 || index ≥ toInt32 tasks.length then ⟨tasks, some "Invalid task number."⟩
  else ⟨tasks.eraseIdx index.toNat, none⟩

/-- The comparison passed to `sort` by `sortByPriority`:
`a->getPriority() > b->getPriority()`. -/
def byPriority (a b : Task) : Bool := Priority.gt a.getPriority b.getPriority

/-- The comparison passed to `sort` by `sortByDeadline`:
`a->getDeadline() < b->getDeadline()`. -/
def byDeadline (a b : Task) : Bool := Date.lt a.getDeadline b.getDeadline

/-- `TodoList::sortByPriority`: `sort(tasks.begin(), tasks.end(), comp)`.  The
library routine `std::sort` is an argument. -/
def sortByPriority (sort : (Task → Task → Bool) → List Task → List Task)
    (tasks : List Task) : List Task :=
  sort byPriority tasks

/-- `TodoList::sortByDeadline`: `sort(tasks.begin(), tasks.end(), comp)`.  The
library routine `std::sort` is an argument. -/
def sortByDeadline (sort : (Task → Task → Bool) → List Task → List Task)
    (tasks : List Task) : List Task :=
  sort byDeadline tasks

/-- The requirement `std::sort` puts on its comparison: a strict weak
ordering. -/
def StrictWeak (comp : Task → Task → Bool) : Prop :=
  (∀ a, comp a a = false) ∧
  (∀ a b c, comp a b = true → comp b c = true → comp a c = true) ∧
  (∀ a b c, comp a b = false → comp b a = false → comp b c = false → comp c b = false →
    comp a c = false ∧ comp c a = false)

/-- What the C++ standard promises of `std::sort(first, last, comp)` for a
strict weak ordering `comp`: the range afterwards holds the same elements,
rearranged, and is sorted with respect to `comp`, that is, no element is
`comp`-before an element that precedes it.  The order of equivalent elements is
left open. -/
def IsStdSort (sort : (Task → Task → Bool) → List Task → List Task) : Prop :=
  ∀ comp, StrictWeak comp → ∀ xs,
    (sort comp xs).Perm xs ∧ (sort comp xs).Pairwise (fun a b => comp b a = false)

/-- The loop of `TodoList::saveToFile`: `for (Task* t : tasks) t->save(out);`. -/
def saveAll (out : List Char) : List Task → List Char
  | [] => out
  | t :: ts => saveAll (Task.vsave out t) ts

/-- `TodoList::saveToFile`: opens `tasks.txt` for writing, which empties it;
when the file cannot be opened nothing is written and the file stays as it
was (`none` stands for no file). -/
def saveToFile (canOpen : Bool) (file : Option (List Char)) (tasks : List Task) :
    Option (List Char) :=
  if !canOpen then file else some (saveAll [] tasks)

/-- The values held by the uninitialised locals of one pass through the loop
of `loadFromFile` (`type`, `p`, `done`) and of the two calls of
`operator>>(istream&, Date&)` in it, before anything is extracted into them. -/
structure Uninit where
  type : Int
  p : Int
  done : Int
  creation : Int × Int × Int
  deadline : Int × Int × Int

/-- One pass through the body of `while (true)` in `loadFromFile`: `none` is
the `break`, otherwise the stream and the task vector after the pass. -/
def loadStep (g : Uninit) (s : IStream) (tasks : List Task) : Option (IStream × List Task) :=
  let r1 := s.extractInt g.type
  if r1.1.fail then none
  else
    let s2 := r1.1.ignore
    let r3 := s2.getline []
    let r4 := r3.1.getline []
    let r5 := r4.1.extractInt g.p
    let r6 := r5.1.extractInt g.done
    let s7 := r6.1.ignore
    let r8 := Date.get s7 g.creation
    let r9 := Date.get r8.1 g.deadline
    let priority := Priority.ofInt r5.2
    if r1.2 == 0 then
      some (r9.1, tasks ++ [Task.new r3.2 r4.2 priority r8.2 r9.2 (r6.2 != 0)])
    else
      some (r9.1, tasks ++ [DeadlineTask.new r3.2 r4.2 priority r8.2 r9.2 (r6.2 != 0)])

/-- The loop `while (true)` of `loadFromFile`, with a bound on the number of
passes; `none` means the bound was too small.  `g i` gives the uninitialised
locals of pass `i`. -/
def loadLoop (g : Nat → Uninit) : Nat → Nat → IStream → List Task → Option (List Task)
  | 0, _, _, _ => none
  | fuel + 1, i, s, tasks =>
    match loadStep (g i) s tasks with
    | none => some tasks
    | some r => loadLoop g fuel (i + 1) r.1 r.2

/-- `TodoList::loadFromFile`: returns at once when the file cannot be opened
(`none`), else runs the loop on its content.  The bound given to the loop is
never reached (`loadLoop_isSome`). -/
def loadFromFile (g : Nat → Uninit) (file : Option (List Char)) (tasks : List Task) :
    List Task :=
  match file with
  | none => tasks
  | some content =>
    (loadLoop g (content.length + 1) 0 (IStream.ofContent content) tasks).getD tasks

/-! ## The library routine `std::sort`

`sortByPriority` and `sortByDeadline` call `std::sort`.  The C++ standard
fixes what the routine achieves (`IsStdSort` above) and leaves open how; the
program as built with g++ runs the routine of the GNU C++ library
(`bits/stl_algo.h`, `bits/stl_heap.h`), which is embedded here.  An iterator is
an index into the array, and a comparison or a swap at an index outside the
array, which the library never makes for a strict weak ordering, answers false
or does nothing. -/

namespace Gnu

/-- `comp(a + i, a + j)`; false when an index is outside the array. -/
def cmpAt {α : Type} (comp : α → α → Bool) (a : List α) (i j : Nat) : Bool :=
  match a[i]?, a[j]? with
  | some x, some y => comp x y
  | _, _ => false

/-- `std::iter_swap(a + i, a + j)`. -/
def iterSwap {α : Type} (a : List α) (i j : Nat) : List α :=
  match a[i]?, a[j]? with
  | some x, some y => (a.set i y).set j x
  | _, _ => a

/-- The routine `std::__move_median_to_first(result, a, b, c, comp)`: swaps the median
of the three elements into `result`. -/
def moveMedianToFirst {α : Type} (comp : α → α → Bool) (a : List α) (result ia ib ic : Nat) :
    List α :=
  if cmpAt comp a ia ib then
    if cmpAt comp a ib ic then iterSwap a result ib
    else if cmpAt comp a ia ic then iterSwap a result ic
    else iterSwap a result ia
  else if cmpAt comp a ia ic then iterSwap a result ia
  else if cmpAt comp a ib ic then iterSwap a result ic
  else iterSwap a result ib

/-- The loop `while (comp(first, pivot)) ++first;` of `std::__unguarded_partition`. -/
def scanUp {α : Type} (comp : α → α → Bool) (a : List α) (pivot : Nat) : Nat → Nat → Nat
  | 0, first => first
  | fuel + 1, first =>
    if cmpAt comp a first pivot then scanUp comp a pivot fuel (first + 1) else first

/-- The loop `while (comp(pivot, last)) --last;` of `std::__unguarded_partition`. -/
def scanDown {α : Type} (comp : α → α → Bool) (a : List α) (pivot : Nat) : Nat → Nat → Nat
  | 0, last => last
  | fuel + 1, last =>
    if cmpAt comp a pivot last then scanDown comp a pivot fuel (last - 1) else last

/-- The routine `std::__unguarded_partition(first, last, pivot, comp)`: the two scans,
then the return of `first` or a swap and another round. -/
def unguardedPartition {α : Type} (comp : α → α → Bool) (pivot : Nat) :
    Nat → List α → Nat → Nat → List α × Nat
  | 0, a, first, _ => (a, first)
  | fuel + 1, a, first, last =>
    let first1 := scanUp comp a pivot a.length first
    let last1 := scanDown comp a pivot a.length (last - 1)
    if first1 < last1 then
      unguardedPartition comp pivot fuel (iterSwap a first1 last1) (first1 + 1) last1
    else (a, first1)

/-- The routine `std::__unguarded_partition_pivot(first, last, comp)`: the median of
`first + 1`, the middle and `last - 1` goes to `first`, then the range after
`first` is partitioned around it. -/
def unguardedPartitionPivot {α : Type} (comp : α → α → Bool) (a : List α) (first last : Nat) :
    List α × Nat :=
  let mid := first + (last - first) / 2
  let a1 := moveMedianToFirst comp a first (first + 1) mid (last - 1)
  unguardedPartition comp first a.length a1 (first + 1) last

/-- The routine `std::__push_heap(first, holeIndex, topIndex, value, comp)`. -/
def pushHeap {α : Type} (comp : α → α → Bool) (first topIndex : Nat) (value : α) :
    Nat → List α → Nat → List α
  | 0, a, holeIndex => a.set (first + holeIndex) value
  | fuel + 1, a, holeIndex =>
    let parent := (holeIndex - 1) / 2
    match a[first + parent]? with
    | some p =>
      if holeIndex > topIndex && comp p value then
        pushHeap comp first topIndex value fuel (a.set (first + holeIndex) p) parent
      else a.set (first + holeIndex) value
    | none => a.set (first + holeIndex) value

/-- The first loop of `std::__adjust_heap`: the hole moves down to the larger
child. -/
def adjustHeapLoop {α : Type} (comp : α → α → Bool) (first len : Nat) :
    Nat → List α → Nat → Nat → List α × Nat × Nat
  | 0, a, holeIndex, secondChild => (a, holeIndex, secondChild)
  | fuel + 1, a, holeIndex, secondChild =>
    if secondChild < (len - 1) / 2 then
      let sc := 2 * (secondChild + 1)
      let sc1 := if cmpAt comp a (first + sc) (first + (sc - 1)) then sc - 1 else sc
      match a[first + sc1]? with
      | some x => adjustHeapLoop comp first len fuel (a.set (first + holeIndex) x) sc1 sc1
      | none => (a, holeIndex, secondChild)
    else (a, holeIndex, secondChild)

/-- The routine `std::__adjust_heap(first, holeIndex, len, value, comp)`. -/
def adjustHeap {α : Type} (comp : α → α → Bool)
    (a : List α) (first holeIndex len : Nat) (value : α) :
    List α :=
  let r := adjustHeapLoop comp first len a.length a holeIndex holeIndex
  let a1 := r.1
  let hole1 := r.2.1
  let sc1 := r.2.2
  if len % 2 == 0 && sc1 == (len - 2) / 2 then
    let sc2 := 2 * (sc1 + 1)
    match a1[first + (sc2 - 1)]? with
    | some x => pushHeap comp first holeIndex value a.length (a1.set (first + hole1) x) (sc2 - 1)
    | none => pushHeap comp first holeIndex value a.length a1 hole1
  else pushHeap comp first holeIndex value a.length a1 hole1

/-- The routine `std::__pop_heap(first, last, result, comp)`. -/
def popHeap {α : Type} (comp : α → α → Bool) (a : List α) (first last result : Nat) : List α :=
  match a[result]?, a[first]? with
  | some value, some top => adjustHeap comp (a.set result top) first 0 (last - first) value
  | _, _ => a

/-- The loop of `std::__make_heap`. -/
def makeHeapLoop {α : Type} (comp : α → α → Bool) (first len : Nat) : Nat → List α → Nat → List α
  | 0, a, _ => a
  | fuel + 1, a, parent =>
    match a[first + parent]? with
    | some value =>
      let a1 := adjustHeap comp a first parent len value
      if parent == 0 then a1 else makeHeapLoop comp first len fuel a1 (parent - 1)
    | none => a

/-- The routine `std::__make_heap(first, last, comp)`. -/
def makeHeap {α : Type} (comp : α → α → Bool) (a : List α) (first last : Nat) : List α :=
  if last - first < 2 then a
  else makeHeapLoop comp first (last - first) a.length a ((last - first - 2) / 2)

/-- The routine `std::__sort_heap(first, last, comp)`. -/
def sortHeap {α : Type} (comp : α → α → Bool) (first : Nat) : Nat → List α → Nat → List α
  | 0, a, _ => a
  | fuel + 1, a, last =>
    if last - first > 1 then
      sortHeap comp first fuel (popHeap comp a first (last - 1) (last - 1)) (last - 1)
    else a

/-- The loop of `std::__heap_select`. -/
def heapSelectLoop {α : Type} (comp : α → α → Bool) (first middle last : Nat) :
    Nat → List α → Nat → List α
  | 0, a, _ => a
  | fuel + 1, a, i =>
    if i < last then
      let a1 := if cmpAt comp a i first then popHeap comp a first middle i else a
      heapSelectLoop comp first middle last fuel a1 (i + 1)
    else a

/-- The routine `std::__heap_select(first, middle, last, comp)`. -/
def heapSelect {α : Type} (comp : α → α → Bool) (a : List α) (first middle last : Nat) : List α :=
  heapSelectLoop comp first middle last a.length (makeHeap comp a first middle) middle

/-- The routine `std::__partial_sort(first, middle, last, comp)`. -/
def partialSort {α : Type} (comp : α → α → Bool) (a : List α) (first middle last : Nat) : List α :=
  let a1 := heapSelect comp a first middle last
  sortHeap comp first a.length a1 middle

/-- The routine `std::__introsort_loop(first, last, depth_limit, comp)`: while the
range has more than 16 elements it is partitioned, the upper part is handled
by the recursive call and the loop goes on with the lower part; when the depth
limit is used up the range is heap-sorted instead. -/
def introsortLoop {α : Type} (comp : α → α → Bool) : Nat → List α → Nat → Nat → Nat → List α
  | 0, a, _, _, _ => a
  | fuel + 1, a, first, last, depthLimit =>
    if last - first > 16 then
      if depthLimit == 0 then partialSort comp a first last last
      else
        let r := unguardedPartitionPivot comp a first last
        let a2 := introsortLoop comp fuel r.1 r.2 last (depthLimit - 1)
        introsortLoop comp fuel a2 first r.2 (depthLimit - 1)
    else a

/-- The loop of `std::__unguarded_linear_insert`: elements that `val` is
`comp`-before move one place up.  The library relies on an element that stops
the loop; here the loop also stops at the front of the array. -/
def unguardedLinearInsertLoop {α : Type} (comp : α → α → Bool) (val : α) :
    Nat → List α → Nat → List α
  | 0, a, last => a.set last val
  | fuel + 1, a, last =>
    if last == 0 then a.set last val
    else
      match a[last - 1]? with
      | some y =>
        if comp val y then unguardedLinearInsertLoop comp val fuel (a.set last y) (last - 1)
        else a.set last val
      | none => a.set last val

/-- The routine `std::__unguarded_linear_insert(last, comp)`. -/
def unguardedLinearInsert {α : Type} (comp : α → α → Bool) (a : List α) (last : Nat) : List α :=
  match a[last]? with
  | some val => unguardedLinearInsertLoop comp val a.length a last
  | none => a

/-- The branch of `std::__insertion_sort` for an element that is `comp`-before the
first one: the elements from `first` to `i` move one place up and the element
goes to `first`. -/
def moveBackwardInsert {α : Type} (a : List α) (first i : Nat) : List α :=
  match a[i]? with
  | some val => a.take first ++ val :: ((a.take i).drop first ++ a.drop (i + 1))
  | none => a

/-- The loop of `std::__insertion_sort`. -/
def insertionSortLoop {α : Type} (comp : α → α → Bool) (first last : Nat) :
    Nat → List α → Nat → List α
  | 0, a, _ => a
  | fuel + 1, a, i =>
    if i == last then a
    else
      let a1 := if cmpAt comp a i first then moveBackwardInsert a first i
                else unguardedLinearInsert comp a i
      insertionSortLoop comp first last fuel a1 (i + 1)

/-- The routine `std::__insertion_sort(first, last, comp)`. -/
def insertionSort {α : Type} (comp : α → α → Bool) (a : List α) (first last : Nat) : List α :=
  if first == last then a else insertionSortLoop comp first last a.length a (first + 1)

/-- The routine `std::__unguarded_insertion_sort(first, last, comp)`, `i` running
from `first`. -/
def unguardedInsertionSortLoop {α : Type} (comp : α → α → Bool) (last : Nat) :
    Nat → List α → Nat → List α
  | 0, a, _ => a
  | fuel + 1, a, i =>
    if i == last then a
    else unguardedInsertionSortLoop comp last fuel (unguardedLinearInsert comp a i) (i + 1)

/-- The routine `std::__final_insertion_sort(first, last, comp)`: insertion sort of
the first 16 elements, then unguarded insertion of the others. -/
def finalInsertionSort {α : Type} (comp : α → α → Bool) (a : List α) (first last : Nat) : List α :=
  if last - first > 16 then
    unguardedInsertionSortLoop comp last a.length (insertionSort comp a first (first + 16))
      (first + 16)
  else insertionSort comp a first last

def lgAux : Nat → Nat → Nat
  | 0, _ => 0
  | fuel + 1, n => if n < 2 then 0 else lgAux fuel (n / 2) + 1

/-- The function `std::__lg(n)`: the position of the highest set bit. -/
def lg (n : Nat) : Nat := lgAux n n

/-- The routine `std::sort(first, last, comp)` of the GNU C++ library on the whole
vector: `std::__introsort_loop` with depth limit `2 * __lg(n)`, then
`std::__final_insertion_sort`. -/
def stdSort {α : Type} (comp : α → α → Bool) (a : List α) : List α :=
  if a.length == 0 then a
  else
    let a1 := introsortLoop comp a.length a 0 a.length (lg a.length * 2)
    finalInsertionSort comp a1 0 a.length

end Gnu

/-! ## Statements in the words of the specification -/

/-- The leap-year rule as the specification words it: divisible by 4 and
(not divisible by 100 or divisible by 400). -/
def SpecLeap (y : Int) : Prop := 4 ∣ y ∧ (¬ 100 ∣ y ∨ 400 ∣ y)

/-- Days in month `m` of year `y` as the specification words it: the usual
month lengths, February having 29 days in leap years and 28 otherwise. -/
def specDaysInMonth (m y : Int) : Int :=
  if m = 2 then (if 4 ∣ y ∧ (¬ 100 ∣ y ∨ 400 ∣ y) then 29 else 28)
  else if m = 4 ∨ m = 6 ∨ m = 9 ∨ m = 11 then 30
  else 31

/-- Calendar validity as the specification words it. -/
def SpecValid (d m y : Int) : Prop :=
  0 ≤ y ∧ 1 ≤ m ∧ m ≤ 12 ∧ 1 ≤ d ∧ d ≤ specDaysInMonth m y

/-! ## Vocabulary of the statements and sample inputs -/

/-- A text that is empty or starts with a character that is not a digit: what
may follow the digits of a number for the extraction to stop there. -/
def NoDigitAhead (rest : List Char) : Prop := ∀ c cs, rest = c :: cs → isDigit c = false

/-- The text of three decimal numbers `d`, `m`, `y` with `w1` between the
first two and `w2` between the last two. -/
def spacedDate (w1 w2 : List Char) (d m y : Int) : List Char :=
  putInt d ++ (w1 ++ (putInt m ++ (w2 ++ putInt y)))

/-- A separator between numbers: at least one character, all whitespace. -/
def IsSeparator (w : List Char) : Prop := w ≠ [] ∧ ∀ c ∈ w, isSpace c = true

/-- A plain task used as a concrete input. -/
def sampleTaskA : Task :=
  Task.new "Buy milk".toList "2 litres".toList (Priority.ofInt 2)
    (Date.mk3 15 8 2024) (Date.mk3 20 9 2024) false

/-- A deadline-flagged task used as a concrete input. -/
def sampleTaskB : Task :=
  DeadlineTask.new "Tax return".toList "".toList (Priority.ofInt 3)
    (Date.mk3 1 3 2024) (Date.mk3 29 2 2028) true

/-- The tag `Task::save` and `DeadlineTask::save` write on the first line. -/
def kindTag : TaskKind → Int
  | TaskKind.plain => 0
  | TaskKind.deadlineTask => 1

/-- The text of one record up to and including the day of the creation date,
followed by `rest`. -/
def recordHead (t : Task) (rest : List Char) : List Char :=
  putInt (kindTag t.kind) ++ '\n' :: (t.title ++ '\n' :: (t.description ++ '\n' ::
    (putInt t.priority.value ++ ' ' :: (putInt (if t.done then 1 else 0) ++ '\n' ::
      (putInt t.creationDate.day ++ '/' :: rest)))))

/-- A routine that meets the promise of `std::sort`: insertion sort, which
places each element after the elements it is not `comp`-before. -/
def insertionSortBy (comp : Task → Task → Bool) (xs : List Task) : List Task :=
  List.insertionSort (fun a b => comp b a = false) xs

/-- Four tasks with ranks Low, High, Medium, High, told apart by their
titles. -/
def rankedTasks : List Task :=
  [Task.new "w".toList [] (Priority.ofInt 1) (Date.mk3 1 1 2024) (Date.mk3 1 2 2024) false,
   Task.new "x".toList [] (Priority.ofInt 3) (Date.mk3 1 1 2024) (Date.mk3 1 2 2024) false,
   Task.new "y".toList [] (Priority.ofInt 2) (Date.mk3 1 1 2024) (Date.mk3 1 2 2024) false,
   Task.new "z".toList [] (Priority.ofInt 3) (Date.mk3 1 1 2024) (Date.mk3 1 2 2024) false]

/-- The tasks of a store that have rank `r`, in store order. -/
def ofRank (r : Int) (tasks : List Task) : List Task :=
  tasks.filter (fun t => t.getPriority.getValue == r)

/-- The tasks of a store whose deadline is `d`, in store order. -/
def withDeadline (d : Date) (tasks : List Task) : List Task :=
  tasks.filter (fun t => t.getDeadline == d)

/-- Three tasks, the first and the last with the same deadline, told apart by
their titles. -/
def datedTasks : List Task :=
  [Task.new "p".toList [] (Priority.ofInt 1) (Date.mk3 1 1 2024) (Date.mk3 15 8 2025) false,
   Task.new "q".toList [] (Priority.ofInt 1) (Date.mk3 1 1 2024) (Date.mk3 29 2 2024) false,
   Task.new "r".toList [] (Priority.ofInt 1) (Date.mk3 1 1 2024) (Date.mk3 15 8 2025) false]

/-- A date as `operator<<` writes it: `day/month/year`. -/
def slashDate (d : Date) : List Char :=
  putInt d.day ++ '/' :: (putInt d.month ++ '/' :: putInt d.year)

/-- The five lines that follow the tag line in what `save` writes. -/
def savedFields (t : Task) : List Char :=
  t.title ++ '\n' :: (t.description ++ '\n' :: (putInt t.priority.value ++ ' ' ::
    (putBool t.done ++ '\n' :: (slashDate t.creationDate ++ '\n' ::
      (slashDate t.deadline ++ ['\n'])))))

/-- A date as the file format of the specification has it:
`<day> <month> <year>`. -/
def specDate (d : Date) : List Char :=
  putInt d.day ++ ' ' :: (putInt d.month ++ ' ' :: putInt d.year)

/-- One record of the file format of the specification, without its final
newline: the tag, the title, the description, `<priority rank> <done as 0|1>`,
and the two dates as `<day> <month> <year>`, a line each. -/
def specRecordBody (t : Task) : List Char :=
  putInt (kindTag t.kind) ++ '\n' :: (t.title ++ '\n' :: (t.description ++ '\n' ::
    (putInt t.priority.value ++ ' ' :: (putInt (if t.done then 1 else 0) ++ '\n' ::
      (specDate t.creationDate ++ '\n' :: specDate t.deadline)))))

/-- One record of the file format of the specification: six lines, each ended
by a newline. -/
def specRecord (t : Task) : List Char := specRecordBody t ++ ['\n']

/-- A date whose fields are calendar-valid in the words of the
specification. -/
def ValidDate (d : Date) : Prop := SpecValid d.day d.month d.year

/-- A task whose priority rank is 1, 2 or 3 and whose creation date and
deadline are each calendar-valid. -/
def ValidTask (t : Task) : Prop :=
  (t.priority.value = 1 ∨ t.priority.value = 2 ∨ t.priority.value = 3) ∧
  ValidDate t.creationDate ∧ ValidDate t.deadline

/-- A store all of whose tasks are valid. -/
def ValidStore (tasks : List Task) : Prop := ∀ t ∈ tasks, ValidTask t

/-- After leading whitespace and an optional sign the text shows a digit: an
extraction of an `int` finds a number there. -/
def startsNumber (txt : List Char) : Bool :=
  match skipWs txt with
  | [] => false
  | c :: cs =>
    match (if c == '-' || c == '+' then cs else c :: cs) with
    | [] => false
    | d :: _ => isDigit d

/-- The text holds something other than whitespace, but not a number: the
next integer is non-numeric. -/
def IsNonNumeric (txt : List Char) : Prop := skipWs txt ≠ [] ∧ startsNumber txt = false

/-- The text holds nothing but whitespace: the next integer is missing. -/
def IsMissing (txt : List Char) : Prop := skipWs txt = []

/-- A value in the range of a 32-bit `int`. -/
def InIntRange (v : Int) : Prop := -2147483648 ≤ v ∧ v ≤ 2147483647

/-- A task that a record of the file format can hold: title and description
free of newlines, valid fields, and years that fit an `int`. -/
def Loadable (t : Task) : Prop :=
  (∀ c ∈ t.title, c ≠ '\n') ∧ (∀ c ∈ t.description, c ≠ '\n') ∧ ValidTask t ∧
  t.creationDate.year ≤ 2147483647 ∧ t.deadline.year ≤ 2147483647

/-- A file of complete records in the file format of the specification. -/
def specFile : List Task → List Char
  | [] => []
  | t :: ts => specRecord t ++ specFile ts

/-- A record cut off after its second line: the tag line and the title line,
with nothing after them. -/
def cutRecord (tag : Int) (title : List Char) : List Char :=
  putInt tag ++ '\n' :: (title ++ ['\n'])

/-- The task the loop of `loadFromFile` builds from a record cut off after
its title: the description is empty and the priority, the done flag and the
two dates come from the uninitialised locals. -/
def cutTask (u : Uninit) (tag : Int) (title : List Char) : Task :=
  if tag == 0 then
    Task.new title [] (Priority.ofInt u.p) (Date.mk3 u.creation.1 u.creation.2.1 u.creation.2.2)
      (Date.mk3 u.deadline.1 u.deadline.2.1 u.deadline.2.2) (u.done != 0)
  else
    DeadlineTask.new title [] (Priority.ofInt u.p)
      (Date.mk3 u.creation.1 u.creation.2.1 u.creation.2.2)
      (Date.mk3 u.deadline.1 u.deadline.2.1 u.deadline.2.2) (u.done != 0)

/-- A plain task of rank Medium, created 1/1/2024 and due 1/2/2024, with the
given title. -/
def titledTask (title : String) : Task :=
  Task.new title.toList [] (Priority.ofInt 2) (Date.mk3 1 1 2024) (Date.mk3 1 2 2024) false

/-- Seventeen tasks of the same rank and the same deadline, titled `a` to
`q`. -/
def seventeenTasks : List Task :=
  ["a", "b", "c", "d", "e", "f", "g", "h", "i", "j", "k", "l", "m", "n", "o", "p", "q"].map
    titledTask

/-! ## Theorems -/

/-- On non-negative years the truncating remainder test of the code is
divisibility. -/
theorem tmod_eq_zero_iff_dvd (y k : Int) (hy : 0 ≤ y) (hk : 0 < k) :
    Int.tmod y k = 0 ↔ k ∣ y := by
  rw [Int.tmod_eq_emod hy (le_of_lt hk)]
  exact Int.dvd_iff_emod_eq_zero.symm

/-- The code's leap-year test agrees with the specification's wording on every
non-negative year. -/
theorem isLeapYear_iff_spec (y : Int) (hy : 0 ≤ y) :
    Date.isLeapYear y = true ↔ SpecLeap y := by
  have h4 := tmod_eq_zero_iff_dvd y 4 hy (by norm_num)
  have h100 := tmod_eq_zero_iff_dvd y 100 hy (by norm_num)
  have h400 := tmod_eq_zero_iff_dvd y 400 hy (by norm_num)
  have h400_4 : (400 : Int) ∣ y → (4 : Int) ∣ y := fun h => Dvd.dvd.trans (by norm_num) h
  unfold Date.isLeapYear SpecLeap
  simp only [Bool.or_eq_true, Bool.and_eq_true, beq_iff_eq, bne_iff_ne, ne_eq, h4, h100, h400]
  tauto

/-- The code's validity test agrees with the specification's wording. -/
theorem isValidDate_iff_spec (d m y : Int) :
    Date.isValidDate d m y = true ↔ SpecValid d m y := by
  unfold Date.isValidDate SpecValid
  by_cases hy : y < 0
  · simp [hy]
  by_cases hm1 : m < 1
  · simp [hm1]
  by_cases hm12 : m > 12
  · simp [hm12]
  by_cases hd : d < 1
  · simp [hd]
  have hy0 : 0 ≤ y := by omega
  have hleap := isLeapYear_iff_spec y hy0
  unfold SpecLeap at hleap
  have hcases : m = 1 ∨ m = 2 ∨ m = 3 ∨ m = 4 ∨ m = 5 ∨ m = 6 ∨ m = 7 ∨ m = 8 ∨ m = 9 ∨
      m = 10 ∨ m = 11 ∨ m = 12 := by omega
  by_cases hl : Date.isLeapYear y = true
  · have hs := hleap.mp hl
    rcases hcases with h | h | h | h | h | h | h | h | h | h | h | h <;>
      subst h <;> simp [hl, hs, hy, hd, specDaysInMonth, Date.daysInMonth] <;> omega
  · have hs : ¬ (4 ∣ y ∧ (¬ 100 ∣ y ∨ 400 ∣ y)) := fun h => hl (hleap.mpr h)
    rcases hcases with h | h | h | h | h | h | h | h | h | h | h | h <;>
      subst h <;> simp [hl, hs, hy, hd, specDaysInMonth, Date.daysInMonth] <;> omega

/-- C3. Date construction: for all integers d, m, y, `Date(d,m,y)` holds exactly
(d,m,y) when y >= 0, 1 <= m <= 12 and 1 <= d <= days-in-month(m,y), and holds
the default date 1/1/2000 in every other case; in particular (30,2,2023),
(0,1,2000) and (15,13,2000) all yield 1/1/2000. -/
theorem C3_date_construction :
    (∀ d m y : Int, Date.mk3 d m y =
      if 0 ≤ y ∧ 1 ≤ m ∧ m ≤ 12 ∧ 1 ≤ d ∧ d ≤ specDaysInMonth m y then ⟨d, m, y⟩
      else ⟨1, 1, 2000⟩) ∧
    Date.mk3 30 2 2023 = ⟨1, 1, 2000⟩ ∧
    Date.mk3 0 1 2000 = ⟨1, 1, 2000⟩ ∧
    Date.mk3 15 13 2000 = ⟨1, 1, 2000⟩ := by
  refine ⟨?_, by decide, by decide, by decide⟩
  intro d m y
  have h := isValidDate_iff_spec d m y
  unfold SpecValid at h
  unfold Date.mk3
  by_cases hv : Date.isValidDate d m y = true
  · rw [if_pos hv, if_pos (h.mp hv)]
  · rw [if_neg hv, if_neg (fun hs => hv (h.mpr hs))]

/-- C4. Leap-year rule: for every year y >= 0, `isLeapYear(y)` holds iff y is
divisible by 4 and (not divisible by 100 or divisible by 400), so 2000 and 2024
are leap and 1900 and 2023 are not; and for every y >= 0, `Date(29,2,y)` keeps
29/2/y iff y is a leap year and otherwise becomes the default date 1/1/2000. -/
theorem C4_leap_year_rule :
    (∀ y : Int, 0 ≤ y →
      (Date.isLeapYear y = true ↔ (4 ∣ y ∧ (¬ 100 ∣ y ∨ 400 ∣ y)))) ∧
    Date.isLeapYear 2000 = true ∧ Date.isLeapYear 2024 = true ∧
    Date.isLeapYear 1900 = false ∧ Date.isLeapYear 2023 = false ∧
    (∀ y : Int, 0 ≤ y →
      (Date.mk3 29 2 y = ⟨29, 2, y⟩ ↔ Date.isLeapYear y = true) ∧
      (Date.isLeapYear y = false → Date.mk3 29 2 y = ⟨1, 1, 2000⟩)) := by
  refine ⟨fun y hy => isLeapYear_iff_spec y hy, by decide, by decide, by decide, by decide, ?_⟩
  intro y hy
  have hny : ¬ y < 0 := by omega
  cases hl : Date.isLeapYear y
  · have hv : Date.isValidDate 29 2 y = false := by
      simp [Date.isValidDate, hl, hny, Date.daysInMonth]
    simp [Date.mk3, hv]
  · have hv : Date.isValidDate 29 2 y = true := by
      simp [Date.isValidDate, hl, hny]
    simp [Date.mk3, hv]

/-- C4 at the year 2024. -/
theorem C4_leap_year_rule_witness :
    (0 : Int) ≤ 2024 ∧
    (Date.isLeapYear 2024 = true ↔ (4 ∣ (2024 : Int) ∧ (¬ 100 ∣ (2024 : Int) ∨ 400 ∣ (2024 : Int)))) ∧
    (Date.mk3 29 2 2024 = ⟨29, 2, 2024⟩ ↔ Date.isLeapYear 2024 = true) :=
  ⟨by decide, C4_leap_year_rule.1 2024 (by decide),
    (C4_leap_year_rule.2.2.2.2.2 2024 (by decide)).1⟩

/-- C5. Priority construction clamps: for every integer v, `Priority(v)` has
rank v when 1 <= v <= 3 and rank 1 otherwise, and `getName` returns "Low",
"Medium", "High" for ranks 1, 2, 3 respectively, never "Unknown" for a
constructed Priority; `Priority(5)` and `Priority(-1)` have rank 1 and name
"Low", and `Priority(2)` has name "Medium". -/
theorem C5_priority_clamps :
    (∀ v : Int, (Priority.ofInt v).getValue = if 1 ≤ v ∧ v ≤ 3 then v else 1) ∧
    (Priority.getName ⟨1⟩ = "Low" ∧ Priority.getName ⟨2⟩ = "Medium" ∧
      Priority.getName ⟨3⟩ = "High") ∧
    (∀ v : Int, (Priority.ofInt v).getName ≠ "Unknown" ∧
      ((Priority.ofInt v).getName = "Low" ↔ (Priority.ofInt v).getValue = 1) ∧
      ((Priority.ofInt v).getName = "Medium" ↔ (Priority.ofInt v).getValue = 2) ∧
      ((Priority.ofInt v).getName = "High" ↔ (Priority.ofInt v).getValue = 3)) ∧
    ((Priority.ofInt 5).getValue = 1 ∧ (Priority.ofInt 5).getName = "Low") ∧
    ((Priority.ofInt (-1)).getValue = 1 ∧ (Priority.ofInt (-1)).getName = "Low") ∧
    (Priority.ofInt 2).getName = "Medium" := by
  refine ⟨?_, by decide, ?_, by decide, by decide, by decide⟩
  · intro v
    unfold Priority.ofInt Priority.getValue
    by_cases h : v ≥ 1 ∧ v ≤ 3
    · rw [if_pos h, if_pos ⟨h.1, h.2⟩]
    · rw [if_neg h, if_neg (fun h2 => h ⟨h2.1, h2.2⟩)]
  · intro v
    by_cases h : v ≥ 1 ∧ v ≤ 3
    · have hc : v = 1 ∨ v = 2 ∨ v = 3 := by omega
      rcases hc with h1 | h1 | h1 <;> subst h1 <;> decide
    · have hp : Priority.ofInt v = ⟨1⟩ := by
        unfold Priority.ofInt
        rw [if_neg h]
      rw [hp]
      decide


/-! ### Decimal text of an `int` and its extraction -/

theorem digitChar_isDigit (k : Nat) (hk : k < 10) :
    isDigit (Nat.digitChar k) = true ∧ (Nat.digitChar k).toNat - 48 = k := by
  interval_cases k <;> decide

theorem isDigit_not_space (c : Char) (h : isDigit c = true) :
    isSpace c = false ∧ (c == '-') = false ∧ (c == '+') = false := by
  unfold isDigit at h
  have h1 := of_decide_eq_true h
  refine ⟨?_, ?_, ?_⟩
  · unfold isSpace
    simp only [Bool.or_eq_false_iff, beq_eq_false_iff_ne, ne_eq]
    refine ⟨⟨⟨⟨⟨?_, ?_⟩, ?_⟩, ?_⟩, ?_⟩, ?_⟩ <;>
      (intro hc; subst hc; revert h1; decide)
  · simp only [beq_eq_false_iff_ne, ne_eq]
    intro hc; subst hc; revert h1; decide
  · simp only [beq_eq_false_iff_ne, ne_eq]
    intro hc; subst hc; revert h1; decide

theorem readDigits_stop (rest : List Char) (h : NoDigitAhead rest) (acc : Nat) :
    readDigits rest acc = (acc, rest) := by
  cases rest with
  | nil => rfl
  | cons c cs => simp [readDigits, h c cs rfl]

theorem decDigits_head (fuel n : Nat) (h : n < fuel) :
    ∃ c cs, decDigits fuel n = c :: cs ∧ isDigit c = true := by
  induction fuel generalizing n with
  | zero => omega
  | succ f ih =>
    unfold decDigits
    by_cases h10 : n < 10
    · rw [if_pos h10]
      exact ⟨_, [], rfl, (digitChar_isDigit n h10).1⟩
    · rw [if_neg h10]
      obtain ⟨c, cs, hc, hd⟩ := ih (n / 10) (by omega)
      exact ⟨c, cs ++ [Nat.digitChar (n % 10)], by rw [hc]; rfl, hd⟩

theorem readDigits_decDigits (fuel n : Nat) (h : n < fuel) (acc : Nat) (rest : List Char) :
    ∃ k, readDigits (decDigits fuel n ++ rest) acc = readDigits rest (acc * 10 ^ k + n) := by
  induction fuel generalizing n acc rest with
  | zero => omega
  | succ f ih =>
    unfold decDigits
    by_cases h10 : n < 10
    · rw [if_pos h10]
      refine ⟨1, ?_⟩
      have hd := digitChar_isDigit n h10
      simp only [List.singleton_append, readDigits, hd.1, hd.2, if_true]
      congr 1
      omega
    · rw [if_neg h10]
      obtain ⟨k, hk⟩ := ih (n / 10) (by omega) acc (Nat.digitChar (n % 10) :: rest)
      refine ⟨k + 1, ?_⟩
      have hd := digitChar_isDigit (n % 10) (Nat.mod_lt n (by norm_num))
      rw [List.append_assoc, List.singleton_append, hk]
      simp only [readDigits, hd.1, hd.2, if_true]
      congr 1
      rw [pow_succ]
      have := Nat.div_add_mod n 10
      nlinarith [this]

theorem skipWs_append (ws l : List Char) (h : ∀ c ∈ ws, isSpace c = true) :
    skipWs (ws ++ l) = skipWs l := by
  induction ws with
  | nil => rfl
  | cons c cs ih =>
    have hc : isSpace c = true := h c (List.mem_cons_self c cs)
    simp only [List.cons_append, skipWs, hc, if_true]
    exact ih (fun x hx => h x (List.mem_cons_of_mem c hx))

/-- Extracting an `int` from a good stream whose text is optional whitespace,
the decimal text of a value in the range of `int`, and a remainder not
starting with a digit, stores that value and stops before the remainder. -/
theorem extractInt_putInt (ws : List Char) (hws : ∀ c ∈ ws, isSpace c = true) (v : Int)
    (hlo : -2147483648 ≤ v) (hhi : v ≤ 2147483647) (rest : List Char)
    (hrest : NoDigitAhead rest) (old : Int) :
    IStream.extractInt ⟨ws ++ (putInt v ++ rest), false, false⟩ old =
      (⟨rest, rest.isEmpty, false⟩, v) := by
  obtain ⟨c, cs, hc, hd⟩ := decDigits_head (v.natAbs + 1) v.natAbs (by omega)
  obtain ⟨k, hk⟩ := readDigits_decDigits (v.natAbs + 1) v.natAbs (by omega) 0 rest
  rw [readDigits_stop rest hrest] at hk
  simp only [zero_mul, zero_add] at hk
  have hns := isDigit_not_space c hd
  unfold IStream.extractInt
  simp only [IStream.good, Bool.not_false, Bool.and_self, Bool.not_true, Bool.false_eq_true,
    if_false, skipWs_append ws _ hws]
  by_cases hneg : v < 0
  · have hp : putInt v = '-' :: (c :: cs) := by unfold putInt; rw [if_pos hneg, hc]
    have hsk : skipWs (putInt v ++ rest) = '-' :: (c :: (cs ++ rest)) := by
      rw [hp]; rfl
    rw [hsk]
    have hk2 : readDigits (c :: (cs ++ rest)) 0 = (v.natAbs, rest) := by
      rw [← List.cons_append, ← hc]; exact hk
    simp only [beq_self_eq_true, Bool.true_or, if_true, hd, Bool.not_true, Bool.false_eq_true,
      if_false, hk2]
    have hv : -((v.natAbs : Nat) : Int) = v := by omega
    rw [hv, if_neg (by omega), if_neg (by omega)]
  · have hp : putInt v = c :: cs := by unfold putInt; rw [if_neg hneg, hc]
    have hsk : skipWs (putInt v ++ rest) = c :: (cs ++ rest) := by
      rw [hp]; simp [skipWs, hns.1]
    rw [hsk]
    have hk2 : readDigits (c :: (cs ++ rest)) 0 = (v.natAbs, rest) := by
      rw [← List.cons_append, ← hc]; exact hk
    simp only [hns.2.1, hns.2.2, Bool.or_self, Bool.false_eq_true, if_false, hd, Bool.not_true,
      hk2]
    have hv : ((v.natAbs : Nat) : Int) = v := by omega
    rw [hv, if_neg (by omega), if_neg (by omega)]

/-- A month of 0 is never valid, whatever the day and the year. -/
theorem mk3_month_zero (d y : Int) : Date.mk3 d 0 y = ⟨1, 1, 2000⟩ := by
  simp [Date.mk3, Date.isValidDate]

/-- C2, as stated, fails: the date 15/8/2024 is calendar-valid, `operator<<`
writes it as `15/8/2024`, and `operator>>` reads that text as no date equal to
it, whatever its uninitialised locals hold (the second extraction stops at the
first `/`, stores 0 for the month, and the constructor falls back to
1/1/2000). -/
theorem C2_format_then_parse_counterexample :
    Date.isValidDate 15 8 2024 = true ∧
    Date.put [] (Date.mk3 15 8 2024) = "15/8/2024".toList ∧
    ¬ ∃ g : Int × Int × Int,
      (Date.get (IStream.ofContent (Date.put [] (Date.mk3 15 8 2024))) g).2 =
        Date.mk3 15 8 2024 := by
  refine ⟨by decide, by decide, ?_⟩
  rintro ⟨g, hg⟩
  have h1 : (Date.get (IStream.ofContent (Date.put [] (Date.mk3 15 8 2024))) g).2 =
      Date.mk3 15 0 g.2.2 := rfl
  rw [h1, mk3_month_zero] at hg
  revert hg
  decide

/-- A separator stops the digits of the number before it. -/
theorem noDigitAhead_separator (w rest : List Char) (hw : IsSeparator w) :
    NoDigitAhead (w ++ rest) ∧ (w ++ rest).isEmpty = false := by
  obtain ⟨hne, hsp⟩ := hw
  cases w with
  | nil => exact absurd rfl hne
  | cons a w =>
    refine ⟨?_, rfl⟩
    intro c cs h
    simp only [List.cons_append, List.cons.injEq] at h
    have ha : isSpace a = true := hsp a (List.mem_cons_self a w)
    rw [← h.1]
    cases hd : isDigit a
    · rfl
    · rw [(isDigit_not_space a hd).1] at ha
      cases ha

/-- C2, amended. For every calendar-valid (d,m,y) whose year fits an `int`,
`operator<<` renders `Date(d,m,y)` as the decimal numbers joined by `/`, and
`operator>>` applied to the same three numbers separated by whitespace yields
a Date with the same day, month and year, whatever its uninitialised locals
hold. -/
theorem C2_date_text_round_trip_amended (d m y : Int)
    (hv : Date.isValidDate d m y = true) (hy : y ≤ 2147483647)
    (w1 w2 : List Char) (hw1 : IsSeparator w1) (hw2 : IsSeparator w2)
    (g : Int × Int × Int) :
    Date.put [] (Date.mk3 d m y) = putInt d ++ ['/'] ++ putInt m ++ ['/'] ++ putInt y ∧
    (Date.get (IStream.ofContent (spacedDate w1 w2 d m y)) g).2 = Date.mk3 d m y ∧
    (Date.mk3 d m y).day = d ∧ (Date.mk3 d m y).month = m ∧ (Date.mk3 d m y).year = y := by
  have hs := (isValidDate_iff_spec d m y).mp hv
  obtain ⟨hy0, hm1, hm12, hd1, hdm⟩ := hs
  have hd31 : d ≤ 31 := by
    unfold specDaysInMonth at hdm
    split_ifs at hdm <;> omega
  have hmk : Date.mk3 d m y = ⟨d, m, y⟩ := by unfold Date.mk3; rw [if_pos hv]
  have hnil : NoDigitAhead [] := by
    intro c cs h
    cases h
  have n1 := noDigitAhead_separator w1 (putInt m ++ (w2 ++ putInt y)) hw1
  have n2 := noDigitAhead_separator w2 (putInt y) hw2
  have e1 := extractInt_putInt [] (by simp) d (by omega) (by omega)
    (w1 ++ (putInt m ++ (w2 ++ putInt y))) n1.1 g.1
  have e2 := extractInt_putInt w1 hw1.2 m (by omega) (by omega)
    (w2 ++ putInt y) n2.1 g.2.1
  have e3 := extractInt_putInt w2 hw2.2 y (by omega) hy [] hnil g.2.2
  rw [List.append_nil] at e3
  rw [List.nil_append, n1.2] at e1
  rw [n2.2] at e2
  refine ⟨?_, ?_, by rw [hmk], by rw [hmk], by rw [hmk]⟩
  · rw [hmk]
    simp [Date.put]
  · unfold Date.get spacedDate IStream.ofContent
    simp only [e1, e2, e3]

/-- The amended C2 at 29/2/2024, written with a space and a tab. -/
theorem C2_date_text_round_trip_amended_witness :
    Date.isValidDate 29 2 2024 = true ∧
    spacedDate [' '] ['\t'] 29 2 2024 = "29 2\t2024".toList ∧
    (Date.get (IStream.ofContent (spacedDate [' '] ['\t'] 29 2 2024)) (7, 7, 7)).2 =
      Date.mk3 29 2 2024 :=
  ⟨by decide, by decide,
    (C2_date_text_round_trip_amended 29 2 2024 (by decide) (by decide) [' '] ['\t']
      ⟨by decide, by decide⟩ ⟨by decide, by decide⟩ (7, 7, 7)).2.1⟩

/-! ### Reading back what `saveToFile` wrote -/

theorem ignore_cons (c : Char) (cs : List Char) :
    IStream.ignore ⟨c :: cs, false, false⟩ = ⟨cs, false, false⟩ := rfl

theorem takeLine_dropLine (l rest : List Char) (h : ∀ c ∈ l, c ≠ '\n') :
    takeLine (l ++ '\n' :: rest) = l ∧ dropLine (l ++ '\n' :: rest) = some rest := by
  induction l with
  | nil => exact ⟨rfl, rfl⟩
  | cons a l ih =>
    have ha : (a == '\n') = false := by
      simpa using h a (List.mem_cons_self a l)
    have ih2 := ih (fun c hc => h c (List.mem_cons_of_mem a hc))
    refine ⟨?_, ?_⟩
    · show (if (a == '\n') = true then [] else a :: takeLine (l ++ '\n' :: rest)) = a :: l
      rw [ha, ih2.1]
      rfl
    · show (if (a == '\n') = true then some (l ++ '\n' :: rest)
        else dropLine (l ++ '\n' :: rest)) = some rest
      rw [ha, ih2.2]
      rfl

/-- On a good stream `getline` returns the text before the next newline and
consumes that newline. -/
theorem getline_line (l rest old : List Char) (h : ∀ c ∈ l, c ≠ '\n') :
    IStream.getline ⟨l ++ '\n' :: rest, false, false⟩ old = (⟨rest, false, false⟩, l) := by
  have ht := takeLine_dropLine l rest h
  unfold IStream.getline
  cases l with
  | nil => rfl
  | cons a l =>
    simp only [List.cons_append] at ht
    simp only [IStream.good, Bool.not_false, Bool.and_self, Bool.not_true, Bool.false_eq_true,
      if_false, List.cons_append, ht.1, ht.2]

/-- On a stream that is not good an extraction leaves the variable alone. -/
theorem extractInt_not_good (s : IStream) (old : Int) (h : s.good = false) :
    s.extractInt old = ({ s with fail := true }, old) := by
  unfold IStream.extractInt
  simp [h]

/-- An extraction that meets `/` fails and stores 0. -/
theorem extractInt_slash (rest : List Char) (old : Int) :
    IStream.extractInt ⟨'/' :: rest, false, false⟩ old = (⟨'/' :: rest, false, true⟩, 0) := by
  rfl

/-- `operator>>` for `Date` on a stream that has already failed: the stream
stays as it is and the date is built from the uninitialised locals. -/
theorem Date_get_failed (buf : List Char) (e : Bool) (g : Int × Int × Int) :
    Date.get ⟨buf, e, true⟩ g = (⟨buf, e, true⟩, Date.mk3 g.1 g.2.1 g.2.2) := by
  have hg : ∀ old, IStream.extractInt ⟨buf, e, true⟩ old = (⟨buf, e, true⟩, old) := by
    intro old
    rw [extractInt_not_good _ _ (by simp [IStream.good])]
  unfold Date.get
  simp only [hg]

/-- `operator>>` for `Date` on the text `operator<<` writes for a day in the
range of `int`: the day is read, the month extraction stops at the `/`, and the
result is the default date on a failed stream. -/
theorem Date_get_slashed (day : Int) (hlo : -2147483648 ≤ day) (hhi : day ≤ 2147483647)
    (rest : List Char) (g : Int × Int × Int) :
    Date.get ⟨putInt day ++ '/' :: rest, false, false⟩ g =
      (⟨'/' :: rest, false, true⟩, ⟨1, 1, 2000⟩) := by
  have hnd : NoDigitAhead ('/' :: rest) := by
    intro c cs h
    cases h
    decide
  have e1 := extractInt_putInt [] (by simp) day hlo hhi ('/' :: rest) hnd g.1
  simp only [List.nil_append, List.isEmpty_cons] at e1
  have e3 : IStream.extractInt ⟨'/' :: rest, false, true⟩ g.2.2 =
      (⟨'/' :: rest, false, true⟩, g.2.2) := by
    rw [extractInt_not_good _ _ (by simp [IStream.good])]
  unfold Date.get
  simp only [e1, extractInt_slash, e3, mk3_month_zero]

/-- Writing to a stream that already holds text appends to that text. -/
theorem saveAll_append (out : List Char) (ts : List Task) :
    saveAll out ts = out ++ saveAll [] ts := by
  induction ts generalizing out with
  | nil => simp [saveAll]
  | cons t ts ih =>
    have hs : Task.vsave out t = out ++ Task.vsave [] t := by
      unfold Task.vsave
      cases t.kind <;>
        simp [Task.save, DeadlineTask.save, Priority.put, Date.put, List.append_assoc]
    simp only [saveAll]
    rw [ih (Task.vsave out t), ih (Task.vsave [] t), hs, List.append_assoc]

/-- The text `saveToFile` writes starts with `recordHead` of the first task. -/
theorem saveAll_cons_head (t : Task) (ts : List Task) :
    ∃ rest, saveAll [] (t :: ts) = recordHead t rest := by
  refine ⟨putInt t.creationDate.month ++ '/' :: (putInt t.creationDate.year ++ '\n' ::
    (Date.put [] t.deadline ++ '\n' :: saveAll [] ts)), ?_⟩
  simp only [saveAll]
  rw [saveAll_append]
  have h0 : putInt 0 = ['0'] := by decide
  have h1 : putInt 1 = ['1'] := by decide
  have hb : putBool t.done = putInt (if t.done then 1 else 0) := by
    cases t.done <;> decide
  unfold recordHead Task.vsave
  cases hk : t.kind <;>
    simp [Task.save, DeadlineTask.save, Priority.put, Date.put, List.append_assoc, kindTag,
      h0, h1, hb]

/-- One pass of the loop of `loadFromFile` over a record written by
`saveToFile`: the fields up to the creation date are read back, the creation
date becomes the default date, the deadline is built from uninitialised locals,
and the stream is left failed. -/
theorem loadStep_recordHead (u : Uninit) (t : Task) (rest : List Char) (tasks : List Task)
    (ht : ∀ c ∈ t.title, c ≠ '\n') (hd : ∀ c ∈ t.description, c ≠ '\n')
    (hp : -2147483648 ≤ t.priority.value ∧ t.priority.value ≤ 2147483647)
    (hc : -2147483648 ≤ t.creationDate.day ∧ t.creationDate.day ≤ 2147483647) :
    loadStep u ⟨recordHead t rest, false, false⟩ tasks =
      some (⟨'/' :: rest, false, true⟩,
        tasks ++ [⟨t.kind, t.title, t.description, t.done, Priority.ofInt t.priority.value,
          ⟨1, 1, 2000⟩, Date.mk3 u.deadline.1 u.deadline.2.1 u.deadline.2.2⟩]) := by
  have hnl : ∀ l : List Char, NoDigitAhead ('\n' :: l) := by
    intro l c cs h
    cases h
    decide
  have hsp : ∀ l : List Char, NoDigitAhead (' ' :: l) := by
    intro l c cs h
    cases h
    decide
  have hws : ∀ c ∈ [' '], isSpace c = true := by decide
  have hk : -2147483648 ≤ kindTag t.kind ∧ kindTag t.kind ≤ 2147483647 := by
    cases t.kind <;> decide
  have hb : -2147483648 ≤ (if t.done then (1 : Int) else 0) ∧
      (if t.done then (1 : Int) else 0) ≤ 2147483647 := by
    cases t.done <;> decide
  have e1 := extractInt_putInt [] (by simp) (kindTag t.kind) hk.1 hk.2 _
    (hnl (t.title ++ '\n' :: (t.description ++ '\n' ::
      (putInt t.priority.value ++ ' ' :: (putInt (if t.done then 1 else 0) ++ '\n' ::
        (putInt t.creationDate.day ++ '/' :: rest)))))) u.type
  have e5 := extractInt_putInt [] (by simp) t.priority.value hp.1 hp.2 _
    (hsp (putInt (if t.done then 1 else 0) ++ '\n' ::
      (putInt t.creationDate.day ++ '/' :: rest))) u.p
  have e6 := extractInt_putInt [' '] hws (if t.done then 1 else 0) hb.1 hb.2 _
    (hnl (putInt t.creationDate.day ++ '/' :: rest)) u.done
  simp only [List.nil_append, List.isEmpty_cons, List.singleton_append] at e1 e5 e6
  have hdone : ((if t.done then (1 : Int) else 0) != 0) = t.done := by
    cases t.done <;> decide
  unfold loadStep recordHead
  simp only [e1, ignore_cons, getline_line _ _ _ ht, getline_line _ _ _ hd, e5, e6,
    Date_get_slashed _ hc.1 hc.2, Date_get_failed, hdone, Bool.false_eq_true, if_false]
  cases hkind : t.kind <;> simp [kindTag, Task.new, DeadlineTask.new]

/-- A failed stream ends the loop of `loadFromFile`. -/
theorem loadStep_failed (u : Uninit) (buf : List Char) (e : Bool) (tasks : List Task) :
    loadStep u ⟨buf, e, true⟩ tasks = none := by
  unfold loadStep
  rw [extractInt_not_good _ _ (by simp [IStream.good])]
  simp

/-- What `loadFromFile` makes of the file `saveToFile` wrote for a store that
is not empty: one task, with the first task's kind, title, description, done
flag and priority, the default creation date, and a deadline built from
uninitialised locals. -/
theorem loadFromFile_saveAll_cons (g : Nat → Uninit) (t : Task) (ts : List Task)
    (ht : ∀ c ∈ t.title, c ≠ '\n') (hd : ∀ c ∈ t.description, c ≠ '\n')
    (hp : -2147483648 ≤ t.priority.value ∧ t.priority.value ≤ 2147483647)
    (hc : -2147483648 ≤ t.creationDate.day ∧ t.creationDate.day ≤ 2147483647) :
    loadFromFile g (saveToFile true none (t :: ts)) [] =
      [⟨t.kind, t.title, t.description, t.done, Priority.ofInt t.priority.value,
        ⟨1, 1, 2000⟩, Date.mk3 (g 0).deadline.1 (g 0).deadline.2.1 (g 0).deadline.2.2⟩] := by
  obtain ⟨rest, hrest⟩ := saveAll_cons_head t ts
  have hlen : ∃ n, (recordHead t rest).length + 1 = n + 2 := by
    obtain ⟨c, cs, hc2, -⟩ := decDigits_head ((kindTag t.kind).natAbs + 1)
      (kindTag t.kind).natAbs (by omega)
    have hpk : putInt (kindTag t.kind) = c :: cs := by
      unfold putInt
      rw [if_neg (by cases t.kind <;> decide), hc2]
    cases hr : recordHead t rest with
    | nil =>
      unfold recordHead at hr
      rw [hpk] at hr
      simp at hr
    | cons x xs => exact ⟨xs.length, by simp⟩
  obtain ⟨n, hn⟩ := hlen
  unfold loadFromFile saveToFile
  simp only [Bool.not_true, Bool.false_eq_true, if_false, hrest, hn]
  unfold IStream.ofContent
  simp only [loadLoop, loadStep_recordHead (g 0) t rest [] ht hd hp hc]
  cases n with
  | zero => simp [loadLoop, loadStep_failed]
  | succ k => simp [loadLoop, loadStep_failed]

/-! ### The loop of `loadFromFile` ends -/

theorem skipWs_length (l : List Char) : (skipWs l).length ≤ l.length := by
  induction l with
  | nil => simp [skipWs]
  | cons c cs ih =>
    unfold skipWs
    split_ifs
    · exact Nat.le_succ_of_le ih
    · exact Nat.le_refl _

theorem readDigits_length (l : List Char) (acc : Nat) :
    (readDigits l acc).2.length ≤ l.length := by
  induction l generalizing acc with
  | nil => simp [readDigits]
  | cons c cs ih =>
    unfold readDigits
    split_ifs
    · exact Nat.le_succ_of_le (ih _)
    · exact Nat.le_refl _

/-- An extraction never puts characters back, and one that leaves the stream
without `failbit` has consumed at least one character. -/
theorem extractInt_buf (s : IStream) (old : Int) :
    (s.extractInt old).1.buf.length ≤ s.buf.length ∧
    ((s.extractInt old).1.fail = false → (s.extractInt old).1.buf.length < s.buf.length) := by
  have hsk := skipWs_length s.buf
  unfold IStream.extractInt
  by_cases hg : s.good = true
  · simp only [hg, Bool.not_true, Bool.false_eq_true, if_false]
    cases hw : skipWs s.buf with
    | nil => simp
    | cons c cs =>
      rw [hw] at hsk
      simp only [List.length_cons] at hsk
      dsimp only
      generalize hb : (if (c == '-' || c == '+') = true then cs else c :: cs) = body
      have hbody : body.length ≤ cs.length + 1 := by
        rw [← hb]
        split_ifs <;> simp
      cases body with
      | nil => simp
      | cons d ds =>
        simp only [List.length_cons] at hbody
        by_cases hd : isDigit d = true
        · have hr : (readDigits (d :: ds) 0).2.length ≤ ds.length := by
            unfold readDigits
            rw [if_pos hd]
            exact readDigits_length ds _
          simp only [hd, Bool.not_true, Bool.false_eq_true, if_false]
          split_ifs <;> simp <;> omega
        · simp only [hd, Bool.not_false, if_true]
          simp
          omega
  · simp [hg]

theorem ignore_buf (s : IStream) : s.ignore.buf.length ≤ s.buf.length := by
  unfold IStream.ignore
  split_ifs
  · simp
  · cases h : s.buf <;> simp

theorem dropLine_length (l rest : List Char) (h : dropLine l = some rest) :
    rest.length ≤ l.length := by
  induction l with
  | nil => simp [dropLine] at h
  | cons c cs ih =>
    unfold dropLine at h
    split_ifs at h
    · cases h
      simp
    · exact Nat.le_succ_of_le (ih h)

theorem getline_buf (s : IStream) (old : List Char) :
    (s.getline old).1.buf.length ≤ s.buf.length := by
  unfold IStream.getline
  split_ifs
  · simp
  · cases h : s.buf with
    | nil => simp
    | cons c cs =>
      dsimp only
      cases hd : dropLine (c :: cs) with
      | none => simp
      | some rest =>
        have := dropLine_length _ _ hd
        simpa using this

theorem Date_get_buf (s : IStream) (g : Int × Int × Int) :
    (Date.get s g).1.buf.length ≤ s.buf.length := by
  unfold Date.get
  have h1 := (extractInt_buf s g.1).1
  have h2 := (extractInt_buf (s.extractInt g.1).1 g.2.1).1
  have h3 := (extractInt_buf ((s.extractInt g.1).1.extractInt g.2.1).1 g.2.2).1
  exact le_trans h3 (le_trans h2 h1)

/-- A pass through the loop that does not break has consumed input. -/
theorem loadStep_some_lt (u : Uninit) (s : IStream) (tasks : List Task)
    (r : IStream × List Task) (h : loadStep u s tasks = some r) :
    r.1.buf.length < s.buf.length := by
  unfold loadStep at h
  by_cases hf : (s.extractInt u.type).1.fail = true
  · simp [hf] at h
  · have hf2 : (s.extractInt u.type).1.fail = false := by simpa using hf
    have h1 := (extractInt_buf s u.type).2 hf2
    have h2 := ignore_buf (s.extractInt u.type).1
    have h3 := getline_buf (s.extractInt u.type).1.ignore []
    have h4 := getline_buf ((s.extractInt u.type).1.ignore.getline []).1 []
    have h5 := (extractInt_buf
      (((s.extractInt u.type).1.ignore.getline []).1.getline []).1 u.p).1
    have h6 := (extractInt_buf
      ((((s.extractInt u.type).1.ignore.getline []).1.getline []).1.extractInt u.p).1
      u.done).1
    have h7 := ignore_buf
      (((((s.extractInt u.type).1.ignore.getline []).1.getline []).1.extractInt u.p).1.extractInt
        u.done).1
    have h8 := Date_get_buf
      (((((s.extractInt u.type).1.ignore.getline []).1.getline []).1.extractInt
        u.p).1.extractInt u.done).1.ignore u.creation
    have h9 := Date_get_buf (Date.get
      (((((s.extractInt u.type).1.ignore.getline []).1.getline []).1.extractInt
        u.p).1.extractInt u.done).1.ignore u.creation).1 u.deadline
    simp only [hf2, Bool.false_eq_true, if_false] at h
    split_ifs at h <;> (cases h; simp only; omega)

/-- The loop of `loadFromFile` ends within as many passes as the file has
characters, plus the one that breaks. -/
theorem loadLoop_isSome (g : Nat → Uninit) (fuel i : Nat) (s : IStream) (tasks : List Task)
    (h : s.buf.length < fuel) : (loadLoop g fuel i s tasks).isSome = true := by
  induction fuel generalizing i s tasks with
  | zero => omega
  | succ f ih =>
    unfold loadLoop
    cases hs : loadStep (g i) s tasks with
    | none => rfl
    | some r =>
      have := loadStep_some_lt (g i) s tasks r hs
      exact ih (i + 1) r.1 r.2 (by omega)

/-- Passes beyond the one that breaks change nothing: any two bounds that are
large enough give the same result. -/
theorem loadLoop_fuel (g : Nat → Uninit) (fuel fuel2 i : Nat) (s : IStream)
    (tasks : List Task) (h : s.buf.length < fuel) (h2 : s.buf.length < fuel2) :
    loadLoop g fuel i s tasks = loadLoop g fuel2 i s tasks := by
  induction fuel generalizing fuel2 i s tasks with
  | zero => omega
  | succ f ih =>
    cases fuel2 with
    | zero => omega
    | succ f2 =>
      unfold loadLoop
      cases hs : loadStep (g i) s tasks with
      | none => rfl
      | some r =>
        have := loadStep_some_lt (g i) s tasks r hs
        exact ih f2 (i + 1) r.1 r.2 (by omega) (by omega)

/-- C1 at a store of two tasks. `saveToFile` writes the dates with `/` between
the numbers; `loadFromFile`, reading that text into an empty store, yields one
task instead of two: its creation date is 1/1/2000 instead of 15/8/2024 and its
deadline is built from the uninitialised locals of `operator>>`, and the second
record is never read because the stream has failed. -/
theorem C1_save_then_load_at_two_tasks (g : Nat → Uninit) :
    saveToFile true none [sampleTaskA, sampleTaskB] =
      some ("0\nBuy milk\n2 litres\n2 0\n15/8/2024\n20/9/2024\n" ++
        "1\nTax return\n\n3 1\n1/3/2024\n29/2/2028\n").toList ∧
    loadFromFile g (saveToFile true none [sampleTaskA, sampleTaskB]) [] =
      [{ sampleTaskA with
          creationDate := ⟨1, 1, 2000⟩
          deadline := Date.mk3 (g 0).deadline.1 (g 0).deadline.2.1 (g 0).deadline.2.2 }] ∧
    loadFromFile g (saveToFile true none [sampleTaskA, sampleTaskB]) [] ≠
      [sampleTaskA, sampleTaskB] := by
  have h1 := loadFromFile_saveAll_cons g sampleTaskA [sampleTaskB] (by decide) (by decide)
    (by decide) (by decide)
  refine ⟨by decide, ?_, ?_⟩
  · rw [h1]
    rfl
  · rw [h1]
    intro h
    have := congrArg List.length h
    simp at this

/-! ### `sortByPriority` and `sortByDeadline` -/

theorem strictWeak_total (comp : Task → Task → Bool) (h : StrictWeak comp) (a b : Task) :
    comp b a = false ∨ comp a b = false := by
  obtain ⟨hirr, htr, -⟩ := h
  cases hab : comp a b
  · exact Or.inr rfl
  · cases hba : comp b a
    · exact Or.inl rfl
    · have := htr a b a hab hba
      rw [hirr a] at this
      cases this

theorem strictWeak_trans (comp : Task → Task → Bool) (h : StrictWeak comp) (a b c : Task)
    (hab : comp b a = false) (hbc : comp c b = false) : comp c a = false := by
  obtain ⟨hirr, htr, heq⟩ := h
  cases hca : comp c a
  · rfl
  · exfalso
    cases h1 : comp a b
    · cases h2 : comp b c
      · have := (heq a b c h1 hab h2 hbc).2
        rw [hca] at this
        cases this
      · have := htr b c a h2 hca
        rw [hab] at this
        cases this
    · have := htr c a b hca h1
      rw [hbc] at this
      cases this

theorem insertionSortBy_spec (comp : Task → Task → Bool) (h : StrictWeak comp)
    (xs : List Task) :
    (insertionSortBy comp xs).Perm xs ∧
    (insertionSortBy comp xs).Pairwise (fun a b => comp b a = false) := by
  haveI : IsTotal Task (fun a b => comp b a = false) := ⟨strictWeak_total comp h⟩
  haveI : IsTrans Task (fun a b => comp b a = false) := ⟨strictWeak_trans comp h⟩
  exact ⟨List.perm_insertionSort _ xs, List.sorted_insertionSort _ xs⟩

theorem isStdSort_insertionSortBy : IsStdSort insertionSortBy :=
  fun comp h xs => insertionSortBy_spec comp h xs

/-- `Date::operator<` is the lexicographic order on (year, month, day). -/
theorem Date_lt_iff (a b : Date) :
    Date.lt a b = true ↔
      (a.year < b.year ∨ (a.year = b.year ∧
        (a.month < b.month ∨ (a.month = b.month ∧ a.day < b.day)))) := by
  unfold Date.lt
  split_ifs with h1 h2 <;> simp only [decide_eq_true_eq] <;> omega

theorem Date_lt_false_iff (a b : Date) :
    Date.lt a b = false ↔
      ¬ (a.year < b.year ∨ (a.year = b.year ∧
        (a.month < b.month ∨ (a.month = b.month ∧ a.day < b.day)))) := by
  rw [← Date_lt_iff]
  simp

theorem strictWeak_byPriority : StrictWeak byPriority := by
  refine ⟨?_, ?_, ?_⟩
  · intro a
    simp [byPriority, Priority.gt]
  · intro a b c
    simp only [byPriority, Priority.gt, decide_eq_true_eq]
    omega
  · intro a b c
    simp only [byPriority, Priority.gt, decide_eq_false_iff_not]
    omega

theorem strictWeak_byDeadline : StrictWeak byDeadline := by
  refine ⟨?_, ?_, ?_⟩
  · intro a
    simp only [byDeadline, Date_lt_false_iff]
    omega
  · intro a b c
    simp only [byDeadline, Date_lt_iff]
    omega
  · intro a b c
    simp only [byDeadline, Date_lt_false_iff]
    omega

/-- C6. `sortByPriority` ordering: for every store, after `sortByPriority` the
task sequence is a permutation of the sequence before (same tasks, same
length, no field changed) and the priority ranks are non-increasing from
first to last, for every routine that meets the promise of `std::sort`. -/
theorem C6_sortByPriority_ordering
    (sort : (Task → Task → Bool) → List Task → List Task) (hs : IsStdSort sort)
    (tasks : List Task) :
    (sortByPriority sort tasks).Perm tasks ∧
    (sortByPriority sort tasks).length = tasks.length ∧
    (sortByPriority sort tasks).Pairwise
      (fun a b => a.getPriority.getValue ≥ b.getPriority.getValue) ∧
    (sortByPriority sort tasks).Chain'
      (fun a b => a.getPriority.getValue ≥ b.getPriority.getValue) := by
  have h := hs byPriority strictWeak_byPriority tasks
  have hp : (sortByPriority sort tasks).Pairwise
      (fun a b => a.getPriority.getValue ≥ b.getPriority.getValue) := by
    refine List.Pairwise.imp ?_ h.2
    intro a b hab
    simp only [byPriority, Priority.gt, decide_eq_false_iff_not] at hab
    simp only [Priority.getValue, Task.getPriority] at hab ⊢
    omega
  exact ⟨h.1, h.1.length_eq, hp, hp.chain'⟩

/-- C6 with insertion sort on the ranks Low, High, Medium, High. -/
theorem C6_sortByPriority_ordering_witness :
    IsStdSort insertionSortBy ∧
    (sortByPriority insertionSortBy rankedTasks).Perm rankedTasks ∧
    (sortByPriority insertionSortBy rankedTasks).map (fun t => t.getPriority.getValue) =
      [3, 3, 2, 1] :=
  ⟨isStdSort_insertionSortBy,
    (C6_sortByPriority_ordering insertionSortBy isStdSort_insertionSortBy rankedTasks).1,
    by decide⟩

/-- Two rearrangements of the same ranks that are both non-increasing are the
same sequence. -/
theorem ranks_unique (l1 l2 : List Int) (hp : l1.Perm l2)
    (h1 : l1.Pairwise (fun a b => a ≥ b)) (h2 : l2.Pairwise (fun a b => a ≥ b)) : l1 = l2 := by
  haveI : IsAntisymm Int (fun a b => a ≥ b) := ⟨fun a b hab hba => le_antisymm hba hab⟩
  exact List.eq_of_perm_of_sorted hp h1 h2

/-- Two rearrangements of the same dates that are both non-decreasing for
`Date::operator<` are the same sequence. -/
theorem dates_unique (l1 l2 : List Date) (hp : l1.Perm l2)
    (h1 : l1.Pairwise (fun a b => Date.lt b a = false))
    (h2 : l2.Pairwise (fun a b => Date.lt b a = false)) : l1 = l2 := by
  haveI : IsAntisymm Date (fun a b => Date.lt b a = false) := ⟨by
    intro a b hab hba
    rw [Date_lt_false_iff] at hab hba
    cases a
    cases b
    simp only [Date.mk.injEq] at hab hba ⊢
    omega⟩
  exact List.eq_of_perm_of_sorted hp h1 h2

theorem sortByPriority_ranks (sort : (Task → Task → Bool) → List Task → List Task)
    (hs : IsStdSort sort) (tasks : List Task) :
    ((sortByPriority sort tasks).map (fun t => t.getPriority.getValue)).Perm
      (tasks.map (fun t => t.getPriority.getValue)) ∧
    ((sortByPriority sort tasks).map (fun t => t.getPriority.getValue)).Pairwise
      (fun a b => a ≥ b) := by
  have h := hs byPriority strictWeak_byPriority tasks
  refine ⟨h.1.map _, ?_⟩
  rw [List.pairwise_map]
  refine List.Pairwise.imp ?_ h.2
  intro a b hab
  simp only [byPriority, Priority.gt, decide_eq_false_iff_not] at hab
  simp only [Priority.getValue, Task.getPriority] at hab ⊢
  omega

theorem sortByDeadline_dates (sort : (Task → Task → Bool) → List Task → List Task)
    (hs : IsStdSort sort) (tasks : List Task) :
    ((sortByDeadline sort tasks).map (fun t => t.getDeadline)).Perm
      (tasks.map (fun t => t.getDeadline)) ∧
    ((sortByDeadline sort tasks).map (fun t => t.getDeadline)).Pairwise
      (fun a b => Date.lt b a = false) := by
  have h := hs byDeadline strictWeak_byDeadline tasks
  refine ⟨h.1.map _, ?_⟩
  rw [List.pairwise_map]
  exact h.2

/-- C7, as stated, fails. The store holds seventeen tasks of equal rank,
titled a to q in this order. `sortByPriority`, running the `std::sort` of the
GNU C++ library, leaves them in the order i, q, p, o, n, m, l, k, j, a, h, g,
f, e, d, c, b: the median step swaps the first task with the middle one and
the partition swaps the tasks pairwise from both ends. Tasks of equal rank
have not kept their relative order, though the store is still the same
seventeen tasks. On the four tasks w, x, y, z of ranks Low,
High, Medium, High the same routine gives x, z, y, w, the two High tasks in
their order. -/
theorem C7_sortByPriority_stability_counterexample :
    seventeenTasks.map (fun t => t.getPriority.getValue) = List.replicate 17 2 ∧
    seventeenTasks.map (fun t => String.mk t.title) =
      ["a", "b", "c", "d", "e", "f", "g", "h", "i", "j", "k", "l", "m", "n", "o", "p", "q"] ∧
    (sortByPriority Gnu.stdSort seventeenTasks).map (fun t => String.mk t.title) =
      ["i", "q", "p", "o", "n", "m", "l", "k", "j", "a", "h", "g", "f", "e", "d", "c", "b"] ∧
    ofRank 2 (sortByPriority Gnu.stdSort seventeenTasks) ≠ ofRank 2 seventeenTasks ∧
    (sortByPriority Gnu.stdSort seventeenTasks).Perm seventeenTasks ∧
    (sortByPriority Gnu.stdSort rankedTasks).map (fun t => String.mk t.title) =
      ["x", "z", "y", "w"] ∧
    ¬ (∀ (tasks : List Task) (r : Int),
        ofRank r (sortByPriority Gnu.stdSort tasks) = ofRank r tasks) := by
  have h : ofRank 2 (sortByPriority Gnu.stdSort seventeenTasks) ≠ ofRank 2 seventeenTasks := by
    decide
  exact ⟨by decide, by decide, by decide, h, by decide, by decide,
    fun hall => h (hall seventeenTasks 2)⟩

/-- C7, amended. For every store and every routine that meets the promise of
`std::sort`, after `sortByPriority` the ranks are non-increasing from first to
last, the tasks of each rank are a rearrangement of the tasks of that rank
before, and the sequence of ranks is the same whichever such routine is used;
in particular ranks Low, High, Medium, High become High, High, Medium, Low.
The order among tasks of equal rank is left open. -/
theorem C7_sortByPriority_ties_amended
    (sort : (Task → Task → Bool) → List Task → List Task) (hs : IsStdSort sort)
    (tasks : List Task) :
    (sortByPriority sort tasks).Pairwise
      (fun a b => a.getPriority.getValue ≥ b.getPriority.getValue) ∧
    (∀ r : Int, (ofRank r (sortByPriority sort tasks)).Perm (ofRank r tasks)) ∧
    (∀ sort2 : (Task → Task → Bool) → List Task → List Task, IsStdSort sort2 →
      (sortByPriority sort tasks).map (fun t => t.getPriority.getValue) =
        (sortByPriority sort2 tasks).map (fun t => t.getPriority.getValue)) ∧
    (tasks.map (fun t => t.getPriority.getValue) = [1, 3, 2, 3] →
      (sortByPriority sort tasks).map (fun t => t.getPriority.getValue) = [3, 3, 2, 1]) := by
  have h := hs byPriority strictWeak_byPriority tasks
  have hr := sortByPriority_ranks sort hs tasks
  refine ⟨?_, fun r => h.1.filter _, ?_, ?_⟩
  · have hp := hr.2
    rw [List.pairwise_map] at hp
    exact hp
  · intro sort2 hs2
    have hr2 := sortByPriority_ranks sort2 hs2 tasks
    exact ranks_unique _ _ (hr.1.trans hr2.1.symm) hr.2 hr2.2
  · intro ht
    refine ranks_unique _ _ (hr.1.trans ?_) hr.2 (by decide)
    rw [ht]
    decide

/-- The amended C7 with insertion sort on the ranks Low, High, Medium, High. -/
theorem C7_sortByPriority_ties_amended_witness :
    IsStdSort insertionSortBy ∧
    (sortByPriority insertionSortBy rankedTasks).Pairwise
      (fun a b => a.getPriority.getValue ≥ b.getPriority.getValue) ∧
    (ofRank 3 (sortByPriority insertionSortBy rankedTasks)).Perm (ofRank 3 rankedTasks) ∧
    (sortByPriority insertionSortBy rankedTasks).map (fun t => t.getPriority.getValue) =
      [3, 3, 2, 1] :=
  ⟨isStdSort_insertionSortBy,
    (C7_sortByPriority_ties_amended insertionSortBy isStdSort_insertionSortBy rankedTasks).1,
    (C7_sortByPriority_ties_amended insertionSortBy isStdSort_insertionSortBy rankedTasks).2.1 3,
    (C7_sortByPriority_ties_amended insertionSortBy isStdSort_insertionSortBy
      rankedTasks).2.2.2 (by decide)⟩

/-- C8. `sortByDeadline` ordering: for every store, after `sortByDeadline` the
task sequence is a permutation of the sequence before (same tasks, same
length, no field changed) and deadlines are chronologically non-decreasing
from first to last (for tasks a before b, and so for adjacent ones:
deadline(a) <= deadline(b)), for every routine that meets the promise of
`std::sort`. -/
theorem C8_sortByDeadline_ordering
    (sort : (Task → Task → Bool) → List Task → List Task) (hs : IsStdSort sort)
    (tasks : List Task) :
    (sortByDeadline sort tasks).Perm tasks ∧
    (sortByDeadline sort tasks).length = tasks.length ∧
    (sortByDeadline sort tasks).Pairwise
      (fun a b => Date.le a.getDeadline b.getDeadline = true) ∧
    (sortByDeadline sort tasks).Chain'
      (fun a b => Date.le a.getDeadline b.getDeadline = true) ∧
    (sortByDeadline sort tasks).Pairwise
      (fun a b => a.deadline.year < b.deadline.year ∨ (a.deadline.year = b.deadline.year ∧
        (a.deadline.month < b.deadline.month ∨ (a.deadline.month = b.deadline.month ∧
          a.deadline.day ≤ b.deadline.day)))) := by
  have h := hs byDeadline strictWeak_byDeadline tasks
  have hp : (sortByDeadline sort tasks).Pairwise
      (fun a b => Date.le a.getDeadline b.getDeadline = true) := by
    refine List.Pairwise.imp ?_ h.2
    intro a b hab
    simp only [byDeadline] at hab
    simp [Date.le, hab]
  refine ⟨h.1, h.1.length_eq, hp, hp.chain', ?_⟩
  refine List.Pairwise.imp ?_ h.2
  intro a b hab
  simp only [byDeadline, Date_lt_false_iff, Task.getDeadline] at hab
  omega

/-- C8 with insertion sort on three dated tasks. -/
theorem C8_sortByDeadline_ordering_witness :
    IsStdSort insertionSortBy ∧
    (sortByDeadline insertionSortBy datedTasks).Perm datedTasks ∧
    (sortByDeadline insertionSortBy datedTasks).map (fun t => t.getDeadline) =
      [⟨29, 2, 2024⟩, ⟨15, 8, 2025⟩, ⟨15, 8, 2025⟩] :=
  ⟨isStdSort_insertionSortBy,
    (C8_sortByDeadline_ordering insertionSortBy isStdSort_insertionSortBy datedTasks).1,
    by decide⟩

/-- C9, as stated, fails. The store holds seventeen tasks with the same
deadline 1/2/2024, titled a to q in this order. `sortByDeadline`, running the
`std::sort` of the GNU C++ library, leaves them in the order i, q, p, o, n, m,
l, k, j, a, h, g, f, e, d, c, b. Tasks with equal deadlines have not kept
their relative order, though the store is still the same seventeen tasks. On
the three tasks p, q, r, of which p and r are both
due 15/8/2025, the same routine gives q, p, r, with p and r in their order. -/
theorem C9_sortByDeadline_stability_counterexample :
    seventeenTasks.map (fun t => t.getDeadline) = List.replicate 17 ⟨1, 2, 2024⟩ ∧
    seventeenTasks.map (fun t => String.mk t.title) =
      ["a", "b", "c", "d", "e", "f", "g", "h", "i", "j", "k", "l", "m", "n", "o", "p", "q"] ∧
    (sortByDeadline Gnu.stdSort seventeenTasks).map (fun t => String.mk t.title) =
      ["i", "q", "p", "o", "n", "m", "l", "k", "j", "a", "h", "g", "f", "e", "d", "c", "b"] ∧
    withDeadline ⟨1, 2, 2024⟩ (sortByDeadline Gnu.stdSort seventeenTasks) ≠
      withDeadline ⟨1, 2, 2024⟩ seventeenTasks ∧
    (sortByDeadline Gnu.stdSort seventeenTasks).Perm seventeenTasks ∧
    (sortByDeadline Gnu.stdSort datedTasks).map (fun t => String.mk t.title) =
      ["q", "p", "r"] ∧
    ¬ (∀ (tasks : List Task) (d : Date),
        withDeadline d (sortByDeadline Gnu.stdSort tasks) = withDeadline d tasks) := by
  have h : withDeadline ⟨1, 2, 2024⟩ (sortByDeadline Gnu.stdSort seventeenTasks) ≠
      withDeadline ⟨1, 2, 2024⟩ seventeenTasks := by
    decide
  exact ⟨by decide, by decide, by decide, h, by decide, by decide,
    fun hall => h (hall seventeenTasks ⟨1, 2, 2024⟩)⟩

/-- C9, amended. For every store and every routine that meets the promise of
`std::sort`, after `sortByDeadline` the deadlines are non-decreasing from first
to last, the tasks with a given deadline are a rearrangement of the tasks with
that deadline before, and the sequence of deadlines is the same whichever such
routine is used; in particular deadlines 15/8/2025, 29/2/2024, 15/8/2025
become 29/2/2024, 15/8/2025, 15/8/2025. The order among tasks of equal
deadline is left open. -/
theorem C9_sortByDeadline_ties_amended
    (sort : (Task → Task → Bool) → List Task → List Task) (hs : IsStdSort sort)
    (tasks : List Task) :
    (sortByDeadline sort tasks).Pairwise
      (fun a b => Date.le a.getDeadline b.getDeadline = true) ∧
    (∀ d : Date, (withDeadline d (sortByDeadline sort tasks)).Perm (withDeadline d tasks)) ∧
    (∀ sort2 : (Task → Task → Bool) → List Task → List Task, IsStdSort sort2 →
      (sortByDeadline sort tasks).map (fun t => t.getDeadline) =
        (sortByDeadline sort2 tasks).map (fun t => t.getDeadline)) ∧
    (tasks.map (fun t => t.getDeadline) = [⟨15, 8, 2025⟩, ⟨29, 2, 2024⟩, ⟨15, 8, 2025⟩] →
      (sortByDeadline sort tasks).map (fun t => t.getDeadline) =
        [⟨29, 2, 2024⟩, ⟨15, 8, 2025⟩, ⟨15, 8, 2025⟩]) := by
  have h := hs byDeadline strictWeak_byDeadline tasks
  have hr := sortByDeadline_dates sort hs tasks
  refine ⟨?_, fun d => h.1.filter _, ?_, ?_⟩
  · refine List.Pairwise.imp ?_ h.2
    intro a b hab
    simp only [byDeadline] at hab
    simp [Date.le, hab]
  · intro sort2 hs2
    have hr2 := sortByDeadline_dates sort2 hs2 tasks
    exact dates_unique _ _ (hr.1.trans hr2.1.symm) hr.2 hr2.2
  · intro ht
    refine dates_unique _ _ (hr.1.trans ?_) hr.2 (by decide)
    rw [ht]
    decide

/-- The amended C9 with insertion sort on three dated tasks. -/
theorem C9_sortByDeadline_ties_amended_witness :
    IsStdSort insertionSortBy ∧
    (sortByDeadline insertionSortBy datedTasks).Pairwise
      (fun a b => Date.le a.getDeadline b.getDeadline = true) ∧
    (withDeadline ⟨15, 8, 2025⟩ (sortByDeadline insertionSortBy datedTasks)).Perm
      (withDeadline ⟨15, 8, 2025⟩ datedTasks) ∧
    (sortByDeadline insertionSortBy datedTasks).map (fun t => t.getDeadline) =
      [⟨29, 2, 2024⟩, ⟨15, 8, 2025⟩, ⟨15, 8, 2025⟩] :=
  ⟨isStdSort_insertionSortBy,
    (C9_sortByDeadline_ties_amended insertionSortBy isStdSort_insertionSortBy datedTasks).1,
    (C9_sortByDeadline_ties_amended insertionSortBy isStdSort_insertionSortBy datedTasks).2.1
      ⟨15, 8, 2025⟩,
    (C9_sortByDeadline_ties_amended insertionSortBy isStdSort_insertionSortBy
      datedTasks).2.2.2 (by decide)⟩

/-! ### `markDone` -/

/-- The conversion `(int)tasks.size()` is exact for a vector of fewer than
2^31 tasks. -/
theorem toInt32_small (n : Nat) (h : n < 2147483648) : toInt32 n = (n : Int) := by
  unfold toInt32
  omega

/-- C10. `markDone(index)` contract: for every store (of a size that fits an
`int`) and every integer index, `markDone` raises an out-of-range error iff
index < 0 or index >= size (always on an empty store), and in that case the
store is left unmodified; otherwise the task at that index has its done flag
set to true and the store's length, order and every other field of every task
are unchanged. -/
theorem C10_markDone_contract (tasks : List Task) (index : Int)
    (hsize : tasks.length < 2147483648) :
    ((markDone tasks index).thrown = some "Invalid task number." ↔
      (index < 0 ∨ index ≥ tasks.length)) ∧
    ((markDone tasks index).thrown = none ↔ (0 ≤ index ∧ index < tasks.length)) ∧
    (tasks = [] → (markDone tasks index).thrown = some "Invalid task number.") ∧
    ((markDone tasks index).thrown ≠ none → (markDone tasks index).tasks = tasks) ∧
    ((markDone tasks index).thrown = none →
      (markDone tasks index).tasks.length = tasks.length ∧
      ∀ j : Nat, (markDone tasks index).tasks[j]? =
        (tasks[j]?).map (fun t => if (j : Int) = index then { t with done := true } else t)) := by
  have hc := toInt32_small tasks.length hsize
  by_cases hr : index < 0 ∨ index ≥ tasks.length
  · have hm : markDone tasks index = ⟨tasks, some "Invalid task number."⟩ := by
      unfold markDone
      rw [hc, if_pos (by simpa using hr)]
    rw [hm]
    refine ⟨by simp [hr], ?_, by simp, by simp, by simp⟩
    simp only [reduceCtorEq, false_iff]
    omega
  · have hm : markDone tasks index = ⟨tasks.modify Task.markDone index.toNat, none⟩ := by
      unfold markDone
      rw [hc, if_neg (by simpa using hr)]
    rw [hm]
    refine ⟨by simp [hr], ?_, ?_, by simp, ?_⟩
    · simp only [true_iff]
      omega
    · intro he
      subst he
      simp at hr
      omega
    · intro _
      refine ⟨by simp, ?_⟩
      intro j
      simp only [List.getElem?_modify, Option.map_eq_map]
      by_cases hj : index.toNat = j
      · have hj2 : (j : Int) = index := by omega
        simp [hj, hj2, Task.markDone]
      · have hj2 : ¬ (j : Int) = index := by omega
        simp [hj, hj2]

/-- C10 at the second of four tasks. -/
theorem C10_markDone_contract_witness :
    rankedTasks.length < 2147483648 ∧
    (markDone rankedTasks 1).thrown = none ∧
    (markDone rankedTasks 1).tasks.map (fun t => t.done) = [false, true, false, false] ∧
    (markDone rankedTasks 4).thrown = some "Invalid task number." :=
  ⟨by decide,
    (C10_markDone_contract rankedTasks 1 (by decide)).2.1.mpr (by decide),
    by decide,
    (C10_markDone_contract rankedTasks 4 (by decide)).1.mpr (by decide)⟩

/-! ### `removeTask` -/

/-- C11. `removeTask(index)` contract: for every store (of a size that fits an
`int`) and every integer index, `removeTask` raises an out-of-range error iff
index < 0 or index >= size (always on an empty store), leaving the store
unmodified; otherwise the resulting sequence has length size-1, entries at
positions < index are unchanged, and the entry at each position j >= index is
the entry formerly at position j+1. -/
theorem C11_removeTask_contract (tasks : List Task) (index : Int)
    (hsize : tasks.length < 2147483648) :
    ((removeTask tasks index).thrown = some "Invalid task number." ↔
      (index < 0 ∨ index ≥ tasks.length)) ∧
    ((removeTask tasks index).thrown = none ↔ (0 ≤ index ∧ index < tasks.length)) ∧
    (tasks = [] → (removeTask tasks index).thrown = some "Invalid task number.") ∧
    ((removeTask tasks index).thrown ≠ none → (removeTask tasks index).tasks = tasks) ∧
    ((removeTask tasks index).thrown = none →
      (removeTask tasks index).tasks.length + 1 = tasks.length ∧
      (∀ j : Nat, (j : Int) < index → (removeTask tasks index).tasks[j]? = tasks[j]?) ∧
      (∀ j : Nat, (j : Int) ≥ index → (removeTask tasks index).tasks[j]? = tasks[j + 1]?)) := by
  have hc := toInt32_small tasks.length hsize
  by_cases hr : index < 0 ∨ index ≥ tasks.length
  · have hm : removeTask tasks index = ⟨tasks, some "Invalid task number."⟩ := by
      unfold removeTask
      rw [hc, if_pos (by simpa using hr)]
    rw [hm]
    refine ⟨by simp [hr], ?_, by simp, by simp, by simp⟩
    simp only [reduceCtorEq, false_iff]
    omega
  · have hm : removeTask tasks index = ⟨tasks.eraseIdx index.toNat, none⟩ := by
      unfold removeTask
      rw [hc, if_neg (by simpa using hr)]
    rw [hm]
    refine ⟨by simp [hr], ?_, ?_, by simp, ?_⟩
    · simp only [true_iff]
      omega
    · intro he
      subst he
      simp at hr
      omega
    · intro _
      have hlt : index.toNat < tasks.length := by omega
      refine ⟨?_, ?_, ?_⟩
      · simp only [List.length_eraseIdx_of_lt hlt]
        omega
      · intro j hj
        exact List.getElem?_eraseIdx_of_lt tasks index.toNat j (by omega)
      · intro j hj
        exact List.getElem?_eraseIdx_of_ge tasks index.toNat j (by omega)

/-- C11 at the second of four tasks, and past the end. -/
theorem C11_removeTask_contract_witness :
    rankedTasks.length < 2147483648 ∧
    (removeTask rankedTasks 1).thrown = none ∧
    (removeTask rankedTasks 1).tasks.map (fun t => t.title) =
      ["w".toList, "y".toList, "z".toList] ∧
    (removeTask rankedTasks 4).thrown = some "Invalid task number." :=
  ⟨by decide,
    (C11_removeTask_contract rankedTasks 1 (by decide)).2.1.mpr (by decide),
    by decide,
    (C11_removeTask_contract rankedTasks 4 (by decide)).1.mpr (by decide)⟩

/-- C16. remove-then-markDone composition: for every store (of a size that
fits an `int`) and every index i with 0 <= i and i+1 < size, performing
`removeTask(i)` and then `markDone(i)` succeeds and yields the original
sequence with the entry at i deleted and the task originally at position i+1
(now at position i) marked done, every other task being unchanged. -/
theorem C16_remove_then_markDone (tasks : List Task) (i : Int)
    (hsize : tasks.length < 2147483648) (h0 : 0 ≤ i) (h1 : i + 1 < tasks.length) :
    (removeTask tasks i).thrown = none ∧
    (markDone (removeTask tasks i).tasks i).thrown = none ∧
    (markDone (removeTask tasks i).tasks i).tasks.length + 1 = tasks.length ∧
    (∀ j : Nat, (j : Int) < i →
      (markDone (removeTask tasks i).tasks i).tasks[j]? = tasks[j]?) ∧
    (markDone (removeTask tasks i).tasks i).tasks[i.toNat]? =
      (tasks[i.toNat + 1]?).map (fun t => { t with done := true }) ∧
    (∀ j : Nat, (j : Int) > i →
      (markDone (removeTask tasks i).tasks i).tasks[j]? = tasks[j + 1]?) := by
  have hc := toInt32_small tasks.length hsize
  have hlt : i.toNat < tasks.length := by omega
  have hr : removeTask tasks i = ⟨tasks.eraseIdx i.toNat, none⟩ := by
    unfold removeTask
    rw [hc, if_neg (by simp; omega)]
  have hlen : (tasks.eraseIdx i.toNat).length + 1 = tasks.length := by
    rw [List.length_eraseIdx_of_lt hlt]
    omega
  have hc2 := toInt32_small (tasks.eraseIdx i.toNat).length (by omega)
  have hm : markDone (tasks.eraseIdx i.toNat) i =
      ⟨(tasks.eraseIdx i.toNat).modify Task.markDone i.toNat, none⟩ := by
    unfold markDone
    rw [hc2, if_neg (by simp; omega)]
  rw [hr]
  simp only [hm]
  refine ⟨trivial, trivial, by simpa using hlen, ?_, ?_, ?_⟩
  · intro j hj
    rw [List.getElem?_modify_ne _ _ (by omega),
      List.getElem?_eraseIdx_of_lt tasks i.toNat j (by omega)]
  · rw [List.getElem?_modify_eq, List.getElem?_eraseIdx_of_ge tasks i.toNat i.toNat (le_refl _)]
    cases tasks[i.toNat + 1]? <;> simp [Task.markDone]
  · intro j hj
    rw [List.getElem?_modify_ne _ _ (by omega),
      List.getElem?_eraseIdx_of_ge tasks i.toNat j (by omega)]

/-- C16 on four tasks: removing the first and then marking index 0 marks the
task that was second. -/
theorem C16_remove_then_markDone_witness :
    rankedTasks.length < 2147483648 ∧
    (markDone (removeTask rankedTasks 0).tasks 0).thrown = none ∧
    (markDone (removeTask rankedTasks 0).tasks 0).tasks.map (fun t => (t.title, t.done)) =
      [("x".toList, true), ("y".toList, false), ("z".toList, false)] :=
  ⟨by decide,
    (C16_remove_then_markDone rankedTasks 0 (by decide) (by decide) (by decide)).2.1,
    by decide⟩

/-! ### `isOverdue` and the order on dates -/

/-- C12. `isOverdue` policy: for every task and every value of today's date,
`isOverdue` is true iff the task is not done and its deadline is
chronologically strictly before today; hence it is false for every done task
regardless of deadline, and false for a task that is not done whose deadline
is today or later. -/
theorem C12_isOverdue_policy (today : Date) (t : Task) :
    (t.isOverdue today = true ↔
      (t.done = false ∧
        (t.deadline.year < today.year ∨ (t.deadline.year = today.year ∧
          (t.deadline.month < today.month ∨ (t.deadline.month = today.month ∧
            t.deadline.day < today.day)))))) ∧
    (t.isOverdue today = true ↔ (t.isDone = false ∧ Date.lt t.getDeadline today = true)) ∧
    (t.done = true → t.isOverdue today = false) ∧
    (t.done = false → t.deadline = today → t.isOverdue today = false) ∧
    (t.done = false → Date.lt today t.deadline = true → t.isOverdue today = false) := by
  have hlt := Date_lt_iff t.deadline today
  have hgt := Date_lt_iff today t.deadline
  unfold Task.isOverdue Task.isDone Task.getDeadline
  refine ⟨?_, ?_, ?_, ?_, ?_⟩
  · simp only [Bool.and_eq_true, Bool.not_eq_true', hlt]
  · simp only [Bool.and_eq_true, Bool.not_eq_true']
  · intro hd
    simp [hd]
  · intro hd he
    rw [he] at hlt
    have : Date.lt today today = false := by
      cases h : Date.lt today today
      · rfl
      · have := hlt.mp h
        omega
    simp [hd, he, this]
  · intro hd hl
    have hl2 := hgt.mp hl
    have : Date.lt t.deadline today = false := by
      cases h : Date.lt t.deadline today
      · rfl
      · have := hlt.mp h
        omega
    simp [hd, this]

/-- C12 at a done task long past its deadline and at the same task when it is
not done. -/
theorem C12_isOverdue_policy_witness :
    (sampleTaskB.done = true ∧ sampleTaskB.isOverdue (Date.today 30 9 130) = false) ∧
    (sampleTaskA.done = false ∧ sampleTaskA.isOverdue (Date.today 30 9 130) = true) ∧
    (sampleTaskA.isOverdue (Date.today 20 8 124) = false) :=
  ⟨⟨by decide, (C12_isOverdue_policy (Date.today 30 9 130) sampleTaskB).2.2.1 (by decide)⟩,
    ⟨by decide,
      (C12_isOverdue_policy (Date.today 30 9 130) sampleTaskA).1.mpr (by decide)⟩,
    (C12_isOverdue_policy (Date.today 20 8 124) sampleTaskA).2.2.2.1 (by decide) (by decide)⟩

/-- C17. Date ordering: for all Dates a and b, a < b holds iff (a.year,
a.month, a.day) is lexicographically smaller than (b.year, b.month, b.day),
and a <= b holds iff a < b or a and b have identical day, month and year;
consequently < is irreflexive, transitive and total on distinct dates. -/
theorem C17_date_ordering :
    (∀ a b : Date, Date.lt a b = true ↔
      (a.year < b.year ∨ (a.year = b.year ∧
        (a.month < b.month ∨ (a.month = b.month ∧ a.day < b.day))))) ∧
    (∀ a b : Date, Date.le a b = true ↔
      (Date.lt a b = true ∨ (a.day = b.day ∧ a.month = b.month ∧ a.year = b.year))) ∧
    (∀ a : Date, Date.lt a a = false) ∧
    (∀ a b c : Date, Date.lt a b = true → Date.lt b c = true → Date.lt a c = true) ∧
    (∀ a b : Date, a ≠ b → (Date.lt a b = true ∨ Date.lt b a = true)) := by
  refine ⟨Date_lt_iff, ?_, ?_, ?_, ?_⟩
  · intro a b
    unfold Date.le
    rw [Bool.not_eq_true', Date_lt_false_iff, Date_lt_iff]
    omega
  · intro a
    rw [Date_lt_false_iff]
    omega
  · intro a b c
    simp only [Date_lt_iff]
    omega
  · intro a b hne
    simp only [Date_lt_iff]
    have : ¬ (a.day = b.day ∧ a.month = b.month ∧ a.year = b.year) := by
      intro h
      apply hne
      cases a
      cases b
      simp only [Date.mk.injEq]
      simp only at h
      exact h
    omega

/-- C17 at two dates of the same year. -/
theorem C17_date_ordering_witness :
    Date.lt ⟨29, 2, 2024⟩ ⟨1, 3, 2024⟩ = true ∧ Date.lt ⟨29, 2, 2024⟩ ⟨1, 3, 2025⟩ = true ∧
    (Date.lt ⟨29, 2, 2024⟩ ⟨1, 3, 2024⟩ = true ∨ Date.lt ⟨1, 3, 2024⟩ ⟨29, 2, 2024⟩ = true) :=
  ⟨by decide,
    C17_date_ordering.2.2.2.1 ⟨29, 2, 2024⟩ ⟨1, 3, 2024⟩ ⟨1, 3, 2025⟩ (by decide) (by decide),
    C17_date_ordering.2.2.2.2 ⟨29, 2, 2024⟩ ⟨1, 3, 2024⟩ (by decide)⟩

/-! ### What `save` writes -/

theorem Date_put_eq (out : List Char) (d : Date) : Date.put out d = out ++ slashDate d := by
  simp [Date.put, slashDate, List.append_assoc]

/-- `Task::save` appends the line `0` and the five lines of fields. -/
theorem Task_save_eq (out : List Char) (t : Task) :
    Task.save out t = out ++ '0' :: '\n' :: savedFields t := by
  simp [Task.save, savedFields, Priority.put, Date_put_eq, List.append_assoc]

/-- `DeadlineTask::save` appends the line `1` and the five lines of fields. -/
theorem DeadlineTask_save_eq (out : List Char) (t : Task) :
    DeadlineTask.save out t = out ++ '1' :: '\n' :: savedFields t := by
  simp [DeadlineTask.save, savedFields, Priority.put, Date_put_eq, List.append_assoc]

/-- C19. Variants differ only in the tag: for every choice of title,
description, priority, done flag, creation date and deadline, the text written
by `DeadlineTask::save` equals the text written by `Task::save` for the same
fields except that the first line is `1` instead of `0`. -/
theorem C19_variants_differ_only_in_tag (title description : List Char) (p : Priority)
    (done : Bool) (cd dl : Date) :
    ∃ body : List Char,
      Task.save [] (Task.new title description p cd dl done) = '0' :: '\n' :: body ∧
      DeadlineTask.save [] (DeadlineTask.new title description p cd dl done) =
        '1' :: '\n' :: body ∧
      body = savedFields (Task.new title description p cd dl done) ∧
      Task.vsave [] (Task.new title description p cd dl done) = '0' :: '\n' :: body ∧
      Task.vsave [] (DeadlineTask.new title description p cd dl done) = '1' :: '\n' :: body := by
  refine ⟨savedFields (Task.new title description p cd dl done), ?_, ?_, rfl, ?_, ?_⟩
  · rw [Task_save_eq]
    rfl
  · rw [DeadlineTask_save_eq]
    rfl
  · show Task.save [] _ = _
    rw [Task_save_eq]
    rfl
  · show DeadlineTask.save [] _ = _
    rw [DeadlineTask_save_eq]
    rfl

/-- C13 on the code. For every task the virtual `save` writes the tag line and
then the title, the description, the priority and done flag, and the two
dates, a line each, but the dates are written as `day/month/year`, so the text
is never the record `<day> <month> <year>` of the file format; for the sample
task the fifth and sixth lines are `15/8/2024` and `20/9/2024` where the format
has `15 8 2024` and `20 9 2024`. -/
theorem C13_record_shape_on_code (t : Task) :
    Task.vsave [] t = putInt (kindTag t.kind) ++ '\n' :: savedFields t ∧
    Task.vsave [] t ≠ specRecord t ∧
    Task.vsave [] sampleTaskA =
      "0\nBuy milk\n2 litres\n2 0\n15/8/2024\n20/9/2024\n".toList ∧
    specRecord sampleTaskA = "0\nBuy milk\n2 litres\n2 0\n15 8 2024\n20 9 2024\n".toList := by
  have h0 : putInt 0 = ['0'] := by decide
  have h1 : putInt 1 = ['1'] := by decide
  have hb : putBool t.done = putInt (if t.done then 1 else 0) := by
    cases t.done <;> decide
  have hshape : Task.vsave [] t = putInt (kindTag t.kind) ++ '\n' :: savedFields t := by
    unfold Task.vsave
    cases t.kind
    · rw [Task_save_eq]
      simp [kindTag, h0]
    · rw [DeadlineTask_save_eq]
      simp [kindTag, h1]
  refine ⟨hshape, ?_, by decide, by decide⟩
  rw [hshape]
  intro h
  simp [savedFields, specRecord, specRecordBody, slashDate, specDate, hb] at h

/-! ### Validity of the fields -/

/-- The validating constructor always yields a calendar-valid date. -/
theorem mk3_valid (d m y : Int) : ValidDate (Date.mk3 d m y) := by
  unfold ValidDate Date.mk3
  by_cases hv : Date.isValidDate d m y = true
  · rw [if_pos hv]
    exact (isValidDate_iff_spec d m y).mp hv
  · rw [if_neg hv]
    exact (isValidDate_iff_spec 1 1 2000).mp (by decide)

/-- The clamping constructor always yields a rank of 1, 2 or 3. -/
theorem ofInt_valid (v : Int) :
    (Priority.ofInt v).value = 1 ∨ (Priority.ofInt v).value = 2 ∨
      (Priority.ofInt v).value = 3 := by
  unfold Priority.ofInt
  by_cases h : v ≥ 1 ∧ v ≤ 3
  · rw [if_pos h]
    show v = 1 ∨ v = 2 ∨ v = 3
    omega
  · rw [if_neg h]
    exact Or.inl rfl

theorem Date_get_valid (s : IStream) (g : Int × Int × Int) : ValidDate (Date.get s g).2 := by
  unfold Date.get
  exact mk3_valid _ _ _

/-- A pass of the loop of `loadFromFile` that does not break appends exactly
one task, and that task is valid whatever was read. -/
theorem loadStep_appends (u : Uninit) (s : IStream) (tasks : List Task)
    (r : IStream × List Task) (h : loadStep u s tasks = some r) :
    ∃ t, r.2 = tasks ++ [t] ∧ ValidTask t := by
  unfold loadStep at h
  by_cases hf : (s.extractInt u.type).1.fail = true
  · simp [hf] at h
  · have hf2 : (s.extractInt u.type).1.fail = false := by simpa using hf
    simp only [hf2, Bool.false_eq_true, if_false] at h
    split_ifs at h <;>
      (cases h
       exact ⟨_, rfl, ofInt_valid _, Date_get_valid _ _, Date_get_valid _ _⟩)

theorem loadLoop_appends (g : Nat → Uninit) (fuel i : Nat) (s : IStream) (tasks res : List Task)
    (h : loadLoop g fuel i s tasks = some res) :
    ∃ app, res = tasks ++ app ∧ ValidStore app := by
  induction fuel generalizing i s tasks with
  | zero => simp [loadLoop] at h
  | succ f ih =>
    unfold loadLoop at h
    cases hs : loadStep (g i) s tasks with
    | none =>
      rw [hs] at h
      cases h
      exact ⟨[], by simp, by intro t ht; cases ht⟩
    | some r =>
      rw [hs] at h
      obtain ⟨t, hr, hvt⟩ := loadStep_appends (g i) s tasks r hs
      obtain ⟨app, hres, hva⟩ := ih (i + 1) r.1 r.2 h
      refine ⟨t :: app, ?_, ?_⟩
      · rw [hres, hr]
        simp
      · intro x hx
        rcases List.mem_cons.mp hx with hx | hx
        · rw [hx]
          exact hvt
        · exact hva x hx

/-- Whatever the file holds, `loadFromFile` appends valid tasks only. -/
theorem loadFromFile_appends (g : Nat → Uninit) (file : Option (List Char))
    (tasks : List Task) :
    ∃ app, loadFromFile g file tasks = tasks ++ app ∧ ValidStore app := by
  unfold loadFromFile
  cases file with
  | none => exact ⟨[], by simp, by intro t ht; cases ht⟩
  | some content =>
    have hsome := loadLoop_isSome g (content.length + 1) 0 (IStream.ofContent content) tasks
      (by simp [IStream.ofContent])
    cases hl : loadLoop g (content.length + 1) 0 (IStream.ofContent content) tasks with
    | none => rw [hl] at hsome; cases hsome
    | some res =>
      obtain ⟨app, hres, hva⟩ := loadLoop_appends g _ 0 _ tasks res hl
      refine ⟨app, ?_, hva⟩
      show (loadLoop g (content.length + 1) 0 (IStream.ofContent content) tasks).getD tasks = _
      rw [hl, hres]
      rfl

theorem markDone_subset_valid (tasks : List Task) (index : Int) (h : ValidStore tasks) :
    ValidStore (markDone tasks index).tasks := by
  unfold markDone
  split_ifs
  · exact h
  · intro t ht
    obtain ⟨n, hn, hget⟩ := List.getElem_of_mem ht
    rw [List.getElem_modify] at hget
    have hn2 : n < tasks.length := by simpa using hn
    have hv := h tasks[n] (List.getElem_mem hn2)
    split_ifs at hget <;> rw [← hget]
    · exact hv
    · exact hv

/-- C20. Field-validity invariant under load: for every file content
whatsoever (well-formed, malformed or truncated) and whatever the
uninitialised locals hold, every task that `loadFromFile` appends has a
priority rank in {1,2,3} and a creation date and a deadline that are each
calendar-valid; and `addTask` (of a valid task), `markDone`, `removeTask`,
`sortByPriority` and `sortByDeadline` preserve this property of the store. -/
theorem C20_field_validity_invariant
    (sort : (Task → Task → Bool) → List Task → List Task) (hs : IsStdSort sort) :
    (∀ (g : Nat → Uninit) (file : Option (List Char)) (tasks : List Task),
      ∃ app, loadFromFile g file tasks = tasks ++ app ∧
        ∀ t ∈ app, (t.priority.value = 1 ∨ t.priority.value = 2 ∨ t.priority.value = 3) ∧
          SpecValid t.creationDate.day t.creationDate.month t.creationDate.year ∧
          SpecValid t.deadline.day t.deadline.month t.deadline.year) ∧
    (∀ (g : Nat → Uninit) (file : Option (List Char)) (tasks : List Task),
      ValidStore tasks → ValidStore (loadFromFile g file tasks)) ∧
    (∀ (tasks : List Task) (t : Task),
      ValidStore tasks → ValidTask t → ValidStore (addTask tasks t)) ∧
    (∀ (tasks : List Task) (index : Int),
      ValidStore tasks → ValidStore (markDone tasks index).tasks) ∧
    (∀ (tasks : List Task) (index : Int),
      ValidStore tasks → ValidStore (removeTask tasks index).tasks) ∧
    (∀ tasks : List Task, ValidStore tasks → ValidStore (sortByPriority sort tasks)) ∧
    (∀ tasks : List Task, ValidStore tasks → ValidStore (sortByDeadline sort tasks)) := by
  refine ⟨?_, ?_, ?_, ?_, ?_, ?_, ?_⟩
  · intro g file tasks
    obtain ⟨app, h1, h2⟩ := loadFromFile_appends g file tasks
    exact ⟨app, h1, h2⟩
  · intro g file tasks hv
    obtain ⟨app, h1, h2⟩ := loadFromFile_appends g file tasks
    rw [h1]
    intro t ht
    rcases List.mem_append.mp ht with ht | ht
    · exact hv t ht
    · exact h2 t ht
  · intro tasks t hv ht x hx
    unfold addTask at hx
    rcases List.mem_append.mp hx with hx | hx
    · exact hv x hx
    · rw [List.mem_singleton.mp hx]
      exact ht
  · intro tasks index hv
    exact markDone_subset_valid tasks index hv
  · intro tasks index hv
    unfold removeTask
    split_ifs
    · exact hv
    · intro t ht
      exact hv t (List.mem_of_mem_eraseIdx ht)
  · intro tasks hv t ht
    exact hv t ((hs byPriority strictWeak_byPriority tasks).1.mem_iff.mp ht)
  · intro tasks hv t ht
    exact hv t ((hs byDeadline strictWeak_byDeadline tasks).1.mem_iff.mp ht)

/-- C20 with insertion sort: a file of junk yields valid tasks only, and
sorting a valid store keeps it valid. -/
theorem C20_field_validity_invariant_witness :
    IsStdSort insertionSortBy ∧
    ValidStore rankedTasks ∧
    ValidStore (sortByPriority insertionSortBy rankedTasks) ∧
    ValidStore (loadFromFile (fun _ => ⟨9, 9, 9, (31, 2, 2023), (0, 0, 0)⟩)
      (some "7\nx".toList) rankedTasks) := by
  have hv : ValidStore rankedTasks := by
    intro t ht
    simp only [rankedTasks, List.mem_cons, List.mem_singleton, List.not_mem_nil, or_false] at ht
    have hd1 : ValidDate (Date.mk3 1 1 2024) := mk3_valid _ _ _
    have hd2 : ValidDate (Date.mk3 1 2 2024) := mk3_valid _ _ _
    rcases ht with h | h | h | h <;> subst h <;>
      exact ⟨by decide, hd1, hd2⟩
  exact ⟨isStdSort_insertionSortBy, hv,
    (C20_field_validity_invariant insertionSortBy isStdSort_insertionSortBy).2.2.2.2.2.1
      rankedTasks hv,
    (C20_field_validity_invariant insertionSortBy isStdSort_insertionSortBy).2.1 _ _
      rankedTasks hv⟩

/-! ### Completion is one-way -/

/-- `TodoList::markDone` leaves every position either as it was or with
`Task::markDone` applied, and leaves tasks that are already done as they
were. -/
theorem markDone_getElem (tasks : List Task) (index : Int) (j : Nat) (x : Task)
    (hx : tasks[j]? = some x) :
    ((markDone tasks index).tasks[j]? = some x ∨
      (markDone tasks index).tasks[j]? = some x.markDone) ∧
    (x.done = true → (markDone tasks index).tasks[j]? = some x) := by
  have hmd : x.done = true → x.markDone = x := by
    intro hd
    cases x
    simp only [Task.markDone] at hd ⊢
    rw [hd]
  unfold markDone
  split_ifs
  · exact ⟨Or.inl hx, fun _ => hx⟩
  · simp only [List.getElem?_modify, hx, Option.map_eq_map, Option.map_some']
    split_ifs
    · exact ⟨Or.inr rfl, fun hd => by rw [hmd hd]⟩
    · exact ⟨Or.inl rfl, fun _ => rfl⟩

/-- C18. Completion is one-way: `Task::markDone` is idempotent (applying it
twice equals applying it once, and on a task that is already done it changes
nothing), and for every store operation (`addTask`, `markDone`, `removeTask`,
`sortByPriority`, `sortByDeadline`) every task that is done before the
operation and still in the store afterwards is still done, with its title,
description, priority, creation date and deadline unchanged: `addTask` and
`markDone` keep such a task at its position as it was, `removeTask` leaves the
remaining tasks as they were and in order, and the sorts only rearrange the
tasks. -/
theorem C18_completion_one_way
    (sort : (Task → Task → Bool) → List Task → List Task) (hs : IsStdSort sort) :
    (∀ t : Task, t.markDone.markDone = t.markDone) ∧
    (∀ t : Task, t.done = true → t.markDone = t) ∧
    (∀ t : Task, t.markDone.done = true ∧ t.markDone.kind = t.kind ∧
      t.markDone.title = t.title ∧ t.markDone.description = t.description ∧
      t.markDone.priority = t.priority ∧ t.markDone.creationDate = t.creationDate ∧
      t.markDone.deadline = t.deadline) ∧
    (∀ (tasks : List Task) (t : Task) (j : Nat) (x : Task),
      tasks[j]? = some x → (addTask tasks t)[j]? = some x) ∧
    (∀ (tasks : List Task) (index : Int) (j : Nat) (x : Task),
      tasks[j]? = some x → x.done = true → (markDone tasks index).tasks[j]? = some x) ∧
    (∀ (tasks : List Task) (index : Int) (j : Nat) (x : Task),
      tasks[j]? = some x →
        ((markDone tasks index).tasks[j]? = some x ∨
          (markDone tasks index).tasks[j]? = some { x with done := true })) ∧
    (∀ (tasks : List Task) (index : Int),
      (removeTask tasks index).tasks.Sublist tasks ∧
      ∀ x ∈ (removeTask tasks index).tasks, x ∈ tasks) ∧
    (∀ tasks : List Task,
      (sortByPriority sort tasks).Perm tasks ∧ ∀ x ∈ sortByPriority sort tasks, x ∈ tasks) ∧
    (∀ tasks : List Task,
      (sortByDeadline sort tasks).Perm tasks ∧ ∀ x ∈ sortByDeadline sort tasks, x ∈ tasks) := by
  refine ⟨fun t => rfl, ?_, fun t => ⟨rfl, rfl, rfl, rfl, rfl, rfl, rfl⟩, ?_, ?_, ?_, ?_, ?_, ?_⟩
  · intro t hd
    cases t
    simp only [Task.markDone] at hd ⊢
    rw [hd]
  · intro tasks t j x hx
    unfold addTask
    have hj : j < tasks.length := by
      by_contra hcon
      rw [List.getElem?_eq_none (by omega)] at hx
      cases hx
    rw [List.getElem?_append_left hj]
    exact hx
  · intro tasks index j x hx hd
    exact (markDone_getElem tasks index j x hx).2 hd
  · intro tasks index j x hx
    exact (markDone_getElem tasks index j x hx).1
  · intro tasks index
    have hsub : (removeTask tasks index).tasks.Sublist tasks := by
      unfold removeTask
      split_ifs
      · exact List.Sublist.refl _
      · exact List.eraseIdx_sublist _ _
    exact ⟨hsub, fun x hx => hsub.subset hx⟩
  · intro tasks
    have h := (hs byPriority strictWeak_byPriority tasks).1
    exact ⟨h, fun x hx => h.mem_iff.mp hx⟩
  · intro tasks
    have h := (hs byDeadline strictWeak_byDeadline tasks).1
    exact ⟨h, fun x hx => h.mem_iff.mp hx⟩

/-- C18 with insertion sort: marking the done sample task again changes
nothing, and sorting only rearranges. -/
theorem C18_completion_one_way_witness :
    IsStdSort insertionSortBy ∧
    (sampleTaskB.done = true ∧ sampleTaskB.markDone = sampleTaskB) ∧
    (sortByPriority insertionSortBy rankedTasks).Perm rankedTasks :=
  ⟨isStdSort_insertionSortBy,
    ⟨by decide,
      (C18_completion_one_way insertionSortBy isStdSort_insertionSortBy).2.1 sampleTaskB
        (by decide)⟩,
    ((C18_completion_one_way insertionSortBy isStdSort_insertionSortBy).2.2.2.2.2.2.2.1
      rankedTasks).1⟩

/-! ### Parsing a date -/

/-- An extraction that finds something other than a number fails and stores
0. -/
theorem extractInt_nonNumeric (txt : List Char) (old : Int) (h : IsNonNumeric txt) :
    (IStream.extractInt ⟨txt, false, false⟩ old).2 = 0 ∧
    (IStream.extractInt ⟨txt, false, false⟩ old).1.fail = true ∧
    (IStream.extractInt ⟨txt, false, false⟩ old).1.good = false := by
  obtain ⟨hne, hsn⟩ := h
  unfold startsNumber at hsn
  unfold IStream.extractInt
  simp only [IStream.good, Bool.not_false, Bool.and_self, Bool.not_true, Bool.false_eq_true,
    if_false]
  cases hw : skipWs txt with
  | nil => exact absurd hw hne
  | cons c cs =>
    rw [hw] at hsn
    dsimp only at hsn ⊢
    generalize (if (c == '-' || c == '+') = true then cs else c :: cs) = body at hsn ⊢
    cases body with
    | nil => exact ⟨rfl, rfl, rfl⟩
    | cons d ds =>
      dsimp only at hsn ⊢
      rw [hsn]
      exact ⟨rfl, rfl, by simp⟩

/-- An extraction that finds nothing but whitespace leaves the variable as it
was. -/
theorem extractInt_missing (txt : List Char) (old : Int) (h : IsMissing txt) :
    IStream.extractInt ⟨txt, false, false⟩ old = (⟨[], true, true⟩, old) := by
  unfold IsMissing at h
  unfold IStream.extractInt
  simp [IStream.good, h]

/-- A day of 0 is never valid, whatever the month and the year. -/
theorem mk3_day_zero (m y : Int) : Date.mk3 0 m y = ⟨1, 1, 2000⟩ := by
  simp [Date.mk3, Date.isValidDate]

/-- An extraction on a stream that is not good leaves a stream that is not
good. -/
theorem extractInt_stays_bad (s : IStream) (old : Int) (h : s.good = false) :
    (s.extractInt old).2 = old ∧ (s.extractInt old).1.good = false := by
  rw [extractInt_not_good s old h]
  refine ⟨rfl, ?_⟩
  simp [IStream.good]

/-- `operator>>` for `Date` on three numbers in the range of `int`, separated
by whitespace and followed by something that is not a digit: the date is
`Date(d,m,y)`. -/
theorem Date_get_three (ws0 w1 w2 : List Char) (d m y : Int) (rest : List Char)
    (h0 : ∀ c ∈ ws0, isSpace c = true) (h1 : IsSeparator w1) (h2 : IsSeparator w2)
    (hd : InIntRange d) (hm : InIntRange m) (hy : InIntRange y) (hrest : NoDigitAhead rest)
    (g : Int × Int × Int) :
    Date.get ⟨ws0 ++ (putInt d ++ (w1 ++ (putInt m ++ (w2 ++ (putInt y ++ rest))))),
        false, false⟩ g =
      (⟨rest, rest.isEmpty, false⟩, Date.mk3 d m y) := by
  have n1 := noDigitAhead_separator w1 (putInt m ++ (w2 ++ (putInt y ++ rest))) h1
  have n2 := noDigitAhead_separator w2 (putInt y ++ rest) h2
  have e1 := extractInt_putInt ws0 h0 d hd.1 hd.2 _ n1.1 g.1
  have e2 := extractInt_putInt w1 h1.2 m hm.1 hm.2 _ n2.1 g.2.1
  have e3 := extractInt_putInt w2 h2.2 y hy.1 hy.2 rest hrest g.2.2
  rw [n1.2] at e1
  rw [n2.2] at e2
  unfold Date.get
  simp only [e1, e2, e3]

/-- `operator>>` for `Date` when the day is non-numeric: the default date. -/
theorem Date_get_day_nonNumeric (txt : List Char) (h : IsNonNumeric txt)
    (g : Int × Int × Int) :
    (Date.get ⟨txt, false, false⟩ g).2 = ⟨1, 1, 2000⟩ := by
  have e1 := extractInt_nonNumeric txt g.1 h
  unfold Date.get
  simp only [e1.1, mk3_day_zero]

/-- `operator>>` for `Date` when the day is a number and the month is
non-numeric: the default date. -/
theorem Date_get_month_nonNumeric (ws0 : List Char) (d : Int) (rest : List Char)
    (h0 : ∀ c ∈ ws0, isSpace c = true) (hd : InIntRange d) (hrest : NoDigitAhead rest)
    (hnn : IsNonNumeric rest) (g : Int × Int × Int) :
    (Date.get ⟨ws0 ++ (putInt d ++ rest), false, false⟩ g).2 = ⟨1, 1, 2000⟩ := by
  have e1 := extractInt_putInt ws0 h0 d hd.1 hd.2 rest hrest g.1
  have hemp : rest.isEmpty = false := by
    cases rest with
    | nil => exact absurd rfl hnn.1
    | cons c cs => rfl
  rw [hemp] at e1
  have e2 := extractInt_nonNumeric rest g.2.1 hnn
  unfold Date.get
  simp only [e1, e2.1, mk3_month_zero]

/-- `operator>>` for `Date` when the day and the month are numbers and the
year is non-numeric: the year is taken as 0. -/
theorem Date_get_year_nonNumeric (ws0 w1 : List Char) (d m : Int) (rest : List Char)
    (h0 : ∀ c ∈ ws0, isSpace c = true) (h1 : IsSeparator w1)
    (hd : InIntRange d) (hm : InIntRange m) (hrest : NoDigitAhead rest)
    (hnn : IsNonNumeric rest) (g : Int × Int × Int) :
    (Date.get ⟨ws0 ++ (putInt d ++ (w1 ++ (putInt m ++ rest))), false, false⟩ g).2 =
      Date.mk3 d m 0 := by
  have n1 := noDigitAhead_separator w1 (putInt m ++ rest) h1
  have e1 := extractInt_putInt ws0 h0 d hd.1 hd.2 _ n1.1 g.1
  have e2 := extractInt_putInt w1 h1.2 m hm.1 hm.2 rest hrest g.2.1
  have hemp : rest.isEmpty = false := by
    cases rest with
    | nil => exact absurd rfl hnn.1
    | cons c cs => rfl
  rw [n1.2] at e1
  rw [hemp] at e2
  have e3 := extractInt_nonNumeric rest g.2.2 hnn
  unfold Date.get
  simp only [e1, e2, e3.1]

/-- C15, as stated, fails. On the text `15 8 x` the year extraction fails and
stores 0, and `operator>>` yields 15/8/0, which is calendar-valid, not the
default date, whatever the uninitialised locals hold. On the text `15` the
month and the year are never written, and with uninitialised locals holding 8
and 2024 the result is 15/8/2024, not the default date. -/
theorem C15_date_parsing_counterexample :
    (¬ ∃ g : Int × Int × Int,
      (Date.get (IStream.ofContent "15 8 x".toList) g).2 = ⟨1, 1, 2000⟩) ∧
    (Date.get (IStream.ofContent "15 8 x".toList) (7, 7, 7)).2 = ⟨15, 8, 0⟩ ∧
    (Date.get (IStream.ofContent "15".toList) (7, 8, 2024)).2 = ⟨15, 8, 2024⟩ := by
  refine ⟨?_, by decide, by decide⟩
  rintro ⟨g, hg⟩
  have htxt : "15 8 x".toList = [] ++ (putInt 15 ++ ([' '] ++ (putInt 8 ++ " x".toList))) := by
    decide
  have h := Date_get_year_nonNumeric [] [' '] 15 8 " x".toList (by simp)
    ⟨by decide, by decide⟩ ⟨by decide, by decide⟩ ⟨by decide, by decide⟩
    (by intro c cs hc; cases hc; decide) ⟨by decide, by decide⟩ g
  unfold IStream.ofContent at hg
  rw [htxt, h] at hg
  revert hg
  decide

/-- C15, amended. Whatever the uninitialised locals hold: when the text
starts with three whitespace-separated integers d m y in the range of `int`,
`operator>>` yields `Date(d,m,y)` via the validating constructor; when the day
is non-numeric, or the day is a number and the month is non-numeric, it yields
the default date 1/1/2000; when the day and the month are numbers and the year
is non-numeric, the year is taken as 0 and it yields `Date(d,m,0)`. -/
theorem C15_date_parsing_amended (g : Int × Int × Int) :
    (∀ (ws0 w1 w2 : List Char) (d m y : Int) (rest : List Char),
      (∀ c ∈ ws0, isSpace c = true) → IsSeparator w1 → IsSeparator w2 →
      InIntRange d → InIntRange m → InIntRange y → NoDigitAhead rest →
      (Date.get (IStream.ofContent
        (ws0 ++ (putInt d ++ (w1 ++ (putInt m ++ (w2 ++ (putInt y ++ rest))))))) g).2 =
        Date.mk3 d m y) ∧
    (∀ txt : List Char, IsNonNumeric txt →
      (Date.get (IStream.ofContent txt) g).2 = ⟨1, 1, 2000⟩) ∧
    (∀ (ws0 : List Char) (d : Int) (rest : List Char),
      (∀ c ∈ ws0, isSpace c = true) → InIntRange d → NoDigitAhead rest → IsNonNumeric rest →
      (Date.get (IStream.ofContent (ws0 ++ (putInt d ++ rest))) g).2 = ⟨1, 1, 2000⟩) ∧
    (∀ (ws0 w1 : List Char) (d m : Int) (rest : List Char),
      (∀ c ∈ ws0, isSpace c = true) → IsSeparator w1 → InIntRange d → InIntRange m →
      NoDigitAhead rest → IsNonNumeric rest →
      (Date.get (IStream.ofContent (ws0 ++ (putInt d ++ (w1 ++ (putInt m ++ rest))))) g).2 =
        Date.mk3 d m 0) := by
  refine ⟨?_, ?_, ?_, ?_⟩
  · intro ws0 w1 w2 d m y rest h0 h1 h2 hd hm hy hrest
    unfold IStream.ofContent
    rw [Date_get_three ws0 w1 w2 d m y rest h0 h1 h2 hd hm hy hrest g]
  · intro txt h
    exact Date_get_day_nonNumeric txt h g
  · intro ws0 d rest h0 hd hrest hnn
    exact Date_get_month_nonNumeric ws0 d rest h0 hd hrest hnn g
  · intro ws0 w1 d m rest h0 h1 hd hm hrest hnn
    exact Date_get_year_nonNumeric ws0 w1 d m rest h0 h1 hd hm hrest hnn g

/-- The amended C15 on the texts ` 29 2\t2024;`, `x 8 2024` and `15 x 2024`. -/
theorem C15_date_parsing_amended_witness :
    (Date.get (IStream.ofContent
      ([' '] ++ (putInt 29 ++ ([' '] ++ (putInt 2 ++ (['\t'] ++ (putInt 2024 ++ [';'])))))))
        (7, 7, 7)).2 = Date.mk3 29 2 2024 ∧
    (Date.get (IStream.ofContent "x 8 2024".toList) (7, 7, 7)).2 = ⟨1, 1, 2000⟩ ∧
    (Date.get (IStream.ofContent ([] ++ (putInt 15 ++ " x 2024".toList))) (7, 7, 7)).2 =
      ⟨1, 1, 2000⟩ :=
  ⟨(C15_date_parsing_amended (7, 7, 7)).1 [' '] [' '] ['\t'] 29 2 2024 [';'] (by decide)
      ⟨by decide, by decide⟩ ⟨by decide, by decide⟩ ⟨by decide, by decide⟩
      ⟨by decide, by decide⟩ ⟨by decide, by decide⟩ (by intro c cs hc; cases hc; decide),
    (C15_date_parsing_amended (7, 7, 7)).2.1 "x 8 2024".toList ⟨by decide, by decide⟩,
    (C15_date_parsing_amended (7, 7, 7)).2.2.1 [] 15 " x 2024".toList (by simp)
      ⟨by decide, by decide⟩ (by intro c cs hc; cases hc; decide) ⟨by decide, by decide⟩⟩

/-! ### Loading a file in the format of the specification -/

theorem noDigitAhead_newline (l : List Char) : NoDigitAhead ('\n' :: l) := by
  intro c cs h
  cases h
  decide

theorem noDigitAhead_space (l : List Char) : NoDigitAhead (' ' :: l) := by
  intro c cs h
  cases h
  decide

/-- `operator>>` for `Date` on a valid date written as `<day> <month> <year>`
reads that date back. -/
theorem Date_get_specDate (ws : List Char) (hws : ∀ c ∈ ws, isSpace c = true) (d : Date)
    (hv : ValidDate d) (hy : d.year ≤ 2147483647) (rest : List Char)
    (hrest : NoDigitAhead rest) (g : Int × Int × Int) :
    Date.get ⟨ws ++ (specDate d ++ rest), false, false⟩ g =
      (⟨rest, rest.isEmpty, false⟩, d) := by
  obtain ⟨hy0, hm1, hm12, hd1, hdm⟩ := hv
  have hd31 : d.day ≤ 31 := by
    unfold specDaysInMonth at hdm
    split_ifs at hdm <;> omega
  have hsep : IsSeparator [' '] := ⟨by decide, by decide⟩
  have h := Date_get_three ws [' '] [' '] d.day d.month d.year rest hws hsep hsep
    ⟨by omega, by omega⟩ ⟨by omega, by omega⟩ ⟨by omega, hy⟩ hrest g
  have hmk : Date.mk3 d.day d.month d.year = d := by
    unfold Date.mk3
    rw [if_pos ((isValidDate_iff_spec _ _ _).mpr ⟨hy0, hm1, hm12, hd1, hdm⟩)]
  have htxt : specDate d ++ rest =
      putInt d.day ++ ([' '] ++ (putInt d.month ++ ([' '] ++ (putInt d.year ++ rest)))) := by
    simp [specDate, List.append_assoc]
  rw [htxt, h, hmk]

/-- One pass of the loop of `loadFromFile` over a complete record in the file
format of the specification reads the task back and stops before the newline
that ends the record. -/
theorem loadStep_specRecord (u : Uninit) (ws : List Char) (hws : ∀ c ∈ ws, isSpace c = true)
    (t : Task) (ht : Loadable t) (rest : List Char) (tasks : List Task) :
    loadStep u ⟨ws ++ (specRecordBody t ++ '\n' :: rest), false, false⟩ tasks =
      some (⟨'\n' :: rest, false, false⟩, tasks ++ [t]) := by
  obtain ⟨htitle, hdesc, ⟨hprio, hcd, hdl⟩, hcy, hdy⟩ := ht
  have hws1 : ∀ c ∈ [' '], isSpace c = true := by decide
  have hk : -2147483648 ≤ kindTag t.kind ∧ kindTag t.kind ≤ 2147483647 := by
    cases t.kind <;> decide
  have hb : -2147483648 ≤ (if t.done then (1 : Int) else 0) ∧
      (if t.done then (1 : Int) else 0) ≤ 2147483647 := by
    cases t.done <;> decide
  have htxt : specRecordBody t ++ '\n' :: rest =
      putInt (kindTag t.kind) ++ '\n' :: (t.title ++ '\n' :: (t.description ++ '\n' ::
        (putInt t.priority.value ++ ' ' :: (putInt (if t.done then 1 else 0) ++ '\n' ::
          ([] ++ (specDate t.creationDate ++ '\n' ::
            (specDate t.deadline ++ '\n' :: rest))))))) := by
    simp [specRecordBody, List.append_assoc]
  have e1 := extractInt_putInt ws hws (kindTag t.kind) hk.1 hk.2 _
    (noDigitAhead_newline (t.title ++ '\n' :: (t.description ++ '\n' ::
      (putInt t.priority.value ++ ' ' :: (putInt (if t.done then 1 else 0) ++ '\n' ::
        ([] ++ (specDate t.creationDate ++ '\n' ::
          (specDate t.deadline ++ '\n' :: rest)))))))) u.type
  have e5 := extractInt_putInt [] (by simp) t.priority.value (by omega) (by omega) _
    (noDigitAhead_space (putInt (if t.done then 1 else 0) ++ '\n' ::
      ([] ++ (specDate t.creationDate ++ '\n' :: (specDate t.deadline ++ '\n' :: rest))))) u.p
  have e6 := extractInt_putInt [' '] hws1 (if t.done then 1 else 0) hb.1 hb.2 _
    (noDigitAhead_newline ([] ++ (specDate t.creationDate ++ '\n' ::
      (specDate t.deadline ++ '\n' :: rest)))) u.done
  have e8 := Date_get_specDate [] (by simp) t.creationDate hcd hcy
    ('\n' :: (specDate t.deadline ++ '\n' :: rest)) (noDigitAhead_newline _) u.creation
  have e9 := Date_get_specDate ['\n'] (by decide) t.deadline hdl hdy
    ('\n' :: rest) (noDigitAhead_newline _) u.deadline
  simp only [List.nil_append, List.isEmpty_cons, List.singleton_append] at e1 e5 e6 e8 e9
  have hdone : ((if t.done then (1 : Int) else 0) != 0) = t.done := by
    cases t.done <;> decide
  have hp : Priority.ofInt t.priority.value = t.priority := by
    unfold Priority.ofInt
    rw [if_pos (by omega)]
  rw [htxt]
  simp only [List.nil_append]
  unfold loadStep
  simp only [e1, ignore_cons, getline_line _ _ _ htitle, getline_line _ _ _ hdesc, e5, e6,
    e8, e9, hdone, hp, Bool.false_eq_true, if_false]
  cases t with
  | mk kind title description done priority creationDate deadline =>
    cases kind <;> simp [kindTag, Task.new, DeadlineTask.new]

/-- With only whitespace left the loop of `loadFromFile` breaks. -/
theorem loadStep_blank (u : Uninit) (ws : List Char) (hws : ∀ c ∈ ws, isSpace c = true)
    (tasks : List Task) : loadStep u ⟨ws, false, false⟩ tasks = none := by
  have hm : IsMissing ws := by
    have := skipWs_append ws [] hws
    rw [List.append_nil] at this
    exact this
  unfold loadStep
  rw [extractInt_missing ws u.type hm]
  simp

/-- The loop of `loadFromFile` over complete records followed by `tail`: the
tasks of the records are appended in order, and the loop goes on at `tail`,
behind whitespace. -/
theorem loadLoop_specFile (g : Nat → Uninit) (ts : List Task) (hts : ∀ t ∈ ts, Loadable t)
    (tail : List Char) (fuel i : Nat) (ws : List Char) (hws : ∀ c ∈ ws, isSpace c = true)
    (acc : List Task) (hfuel : (ws ++ (specFile ts ++ tail)).length < fuel) :
    ∃ (ws2 : List Char) (fuel2 : Nat), (∀ c ∈ ws2, isSpace c = true) ∧
      (ws2 ++ tail).length < fuel2 ∧
      loadLoop g fuel i ⟨ws ++ (specFile ts ++ tail), false, false⟩ acc =
        loadLoop g fuel2 (i + ts.length) ⟨ws2 ++ tail, false, false⟩ (acc ++ ts) := by
  induction ts generalizing fuel i ws acc with
  | nil =>
    refine ⟨ws, fuel, hws, ?_, ?_⟩
    · simpa [specFile] using hfuel
    · simp [specFile]
  | cons t ts ih =>
    have ht : Loadable t := hts t (List.mem_cons_self t ts)
    have htxt : specFile (t :: ts) ++ tail =
        specRecordBody t ++ '\n' :: (specFile ts ++ tail) := by
      simp [specFile, specRecord, List.append_assoc]
    have hstep := loadStep_specRecord (g i) ws hws t ht (specFile ts ++ tail) acc
    cases fuel with
    | zero => omega
    | succ f =>
      have hlt := loadStep_some_lt (g i) _ acc _ hstep
      rw [htxt] at hfuel ⊢
      simp only at hlt
      obtain ⟨ws2, fuel2, h1, h2, h3⟩ := ih (fun x hx => hts x (List.mem_cons_of_mem t hx))
        f (i + 1) ['\n'] (by decide) (acc ++ [t]) (by
          simp only [List.singleton_append]
          omega)
      refine ⟨ws2, fuel2, h1, h2, ?_⟩
      have e1 : i + 1 + ts.length = i + (t :: ts).length := by
        simp only [List.length_cons]
        omega
      have e2 : acc ++ [t] ++ ts = acc ++ t :: ts := by simp
      simp only [List.singleton_append] at h3
      rw [loadLoop, hstep]
      show loadLoop g f (i + 1) _ _ = _
      rw [h3, e1, e2]

/-- A file of complete records in the file format of the specification loads
as the tasks of its records, in order. -/
theorem loadFromFile_specFile (g : Nat → Uninit) (ts : List Task)
    (hts : ∀ t ∈ ts, Loadable t) : loadFromFile g (some (specFile ts)) [] = ts := by
  obtain ⟨ws2, fuel2, h1, h2, h3⟩ := loadLoop_specFile g ts hts [] ((specFile ts).length + 1)
    0 [] (by simp) [] (by simp)
  simp only [List.nil_append, List.append_nil, zero_add] at h2 h3
  unfold loadFromFile IStream.ofContent
  simp only [h3]
  cases fuel2 with
  | zero => omega
  | succ f =>
    rw [loadLoop, loadStep_blank _ ws2 h1]
    rfl

/-- One pass of the loop of `loadFromFile` over a record cut off after its
title: the tag and the title are read, every later read fails, and a task is
appended all the same. -/
theorem loadStep_cutRecord (u : Uninit) (ws : List Char) (hws : ∀ c ∈ ws, isSpace c = true)
    (tag : Int) (htag : InIntRange tag) (title : List Char) (htitle : ∀ c ∈ title, c ≠ '\n')
    (tasks : List Task) :
    loadStep u ⟨ws ++ cutRecord tag title, false, false⟩ tasks =
      some (⟨[], true, true⟩, tasks ++ [cutTask u tag title]) := by
  have e1 := extractInt_putInt ws hws tag htag.1 htag.2 _
    (noDigitAhead_newline (title ++ ['\n'])) u.type
  simp only [List.isEmpty_cons] at e1
  have hbad : ∀ old, IStream.extractInt ⟨[], true, true⟩ old = (⟨[], true, true⟩, old) := by
    intro old
    rw [extractInt_not_good _ _ (by simp [IStream.good])]
  have hgl : IStream.getline ⟨[], false, false⟩ [] = (⟨[], true, true⟩, []) := rfl
  have hig : IStream.ignore ⟨[], true, true⟩ = ⟨[], true, true⟩ := rfl
  unfold loadStep cutRecord cutTask
  simp only [e1, ignore_cons, getline_line _ _ _ htitle, hgl, hbad, hig, Date_get_failed,
    Bool.false_eq_true, if_false]
  split_ifs <;> rfl

/-- Complete records followed by a record cut off after its title load as the
tasks of the complete records and one more task, built from the cut record. -/
theorem loadFromFile_specFile_cut (g : Nat → Uninit) (ts : List Task)
    (hts : ∀ t ∈ ts, Loadable t) (tag : Int) (htag : InIntRange tag) (title : List Char)
    (htitle : ∀ c ∈ title, c ≠ '\n') :
    loadFromFile g (some (specFile ts ++ cutRecord tag title)) [] =
      ts ++ [cutTask (g ts.length) tag title] := by
  obtain ⟨ws2, fuel2, h1, h2, h3⟩ := loadLoop_specFile g ts hts (cutRecord tag title)
    ((specFile ts ++ cutRecord tag title).length + 1) 0 [] (by simp) [] (by simp)
  simp only [List.nil_append, zero_add] at h3
  have hne : ∃ c cs, cutRecord tag title = c :: cs := by
    obtain ⟨c, cs, hc, -⟩ := decDigits_head (tag.natAbs + 1) tag.natAbs (by omega)
    unfold cutRecord putInt
    split_ifs
    · exact ⟨_, _, rfl⟩
    · rw [hc]
      exact ⟨_, _, rfl⟩
  obtain ⟨c, cs, hcut⟩ := hne
  have hlen : 2 ≤ fuel2 := by
    rw [hcut] at h2
    simp only [List.length_append, List.length_cons] at h2
    omega
  unfold loadFromFile IStream.ofContent
  simp only [h3]
  obtain ⟨f, hf⟩ : ∃ f, fuel2 = f + 2 := ⟨fuel2 - 2, by omega⟩
  rw [hf, loadLoop, loadStep_cutRecord _ ws2 h1 tag htag title htitle]
  show (loadLoop g (f + 1) (ts.length + 1) _ _).getD [] = _
  rw [loadLoop, loadStep_failed]
  rfl

/-- With something that is not a number where the tag should be, the loop of
`loadFromFile` breaks. -/
theorem loadStep_nonNumeric (u : Uninit) (txt : List Char) (h : IsNonNumeric txt)
    (tasks : List Task) : loadStep u ⟨txt, false, false⟩ tasks = none := by
  have e := extractInt_nonNumeric txt u.type h
  unfold loadStep
  simp [e.2.1]

/-- Complete records followed by text whose tag cannot be read load as the
tasks of the complete records and nothing else. -/
theorem loadFromFile_specFile_badTag (g : Nat → Uninit) (ts : List Task)
    (hts : ∀ t ∈ ts, Loadable t) (tail : List Char) (htail : IsNonNumeric tail) :
    loadFromFile g (some (specFile ts ++ tail)) [] = ts := by
  obtain ⟨ws2, fuel2, h1, h2, h3⟩ := loadLoop_specFile g ts hts tail
    ((specFile ts ++ tail).length + 1) 0 [] (by simp) [] (by simp)
  simp only [List.nil_append, zero_add] at h3
  have hnn : IsNonNumeric (ws2 ++ tail) := by
    unfold IsNonNumeric startsNumber at htail ⊢
    rw [skipWs_append ws2 tail h1]
    exact htail
  unfold loadFromFile IStream.ofContent
  simp only [h3]
  cases fuel2 with
  | zero => omega
  | succ f =>
    rw [loadLoop, loadStep_nonNumeric _ _ hnn]
    rfl

theorem sampleTaskA_loadable : Loadable sampleTaskA :=
  ⟨by decide, by decide, ⟨by decide, mk3_valid _ _ _, mk3_valid _ _ _⟩, by decide, by decide⟩

/-- C14 at one complete record followed by a tag line and a title line. The
file loads as two tasks, not one: the complete record gives the sample task,
and the cut record gives a second task with the title `Tax return`, an empty
description, and a priority, a done flag and dates built from the
uninitialised locals of the second pass. The complete record alone loads as
the one sample task. -/
theorem C14_cut_record_at_sample (g : Nat → Uninit) :
    specFile [sampleTaskA] ++ cutRecord 1 "Tax return".toList =
      ("0\nBuy milk\n2 litres\n2 0\n15 8 2024\n20 9 2024\n" ++ "1\nTax return\n").toList ∧
    loadFromFile g (some (specFile [sampleTaskA])) [] = [sampleTaskA] ∧
    loadFromFile g (some (specFile [sampleTaskA] ++ cutRecord 1 "Tax return".toList)) [] =
      [sampleTaskA,
        DeadlineTask.new "Tax return".toList [] (Priority.ofInt (g 1).p)
          (Date.mk3 (g 1).creation.1 (g 1).creation.2.1 (g 1).creation.2.2)
          (Date.mk3 (g 1).deadline.1 (g 1).deadline.2.1 (g 1).deadline.2.2)
          ((g 1).done != 0)] ∧
    (loadFromFile g (some (specFile [sampleTaskA] ++ cutRecord 1 "Tax return".toList))
      []).length = 2 := by
  have hl : ∀ t ∈ [sampleTaskA], Loadable t := by
    intro t ht
    rw [List.mem_singleton.mp ht]
    exact sampleTaskA_loadable
  have h2 := loadFromFile_specFile_cut g [sampleTaskA] hl 1 ⟨by decide, by decide⟩
    "Tax return".toList (by decide)
  refine ⟨by decide, loadFromFile_specFile g [sampleTaskA] hl, ?_, ?_⟩
  · rw [h2]
    rfl
  · rw [h2]
    rfl

end TodoList
